import Mathlib

/-!
# Verification of the availability-calendar state derivation engine

Shallow embedding of `scripts/update_availability_2026.py`: the interval
parser (`parse_date`), the state calculator (`calculate_states`), the
reconciler (`update_database`, modelling `_update_database`), the
per-property pipeline (`update_cabin_availability`) and the batch summary
loop (`run_summary`).

Modelling conventions:
* Python `datetime.date` values are represented by their proleptic Gregorian
  ordinal (`Date.toOrd`, the same numbering as Python's `date.toordinal`):
  adding `timedelta(days=1)` is `+ 1`, and date comparison is `Nat`
  comparison.  The string keys `d.strftime('%Y-%m-%d')` of the Python state
  dict are in bijection with the ordinals of valid dates, so the computed
  state map is keyed here by date ordinals.
* Python dicts are modelled as association lists (`List (Nat × Nat)`) with
  dict semantics: updating an existing key replaces its value in place,
  a fresh key is appended (Python dicts preserve insertion order).
* `datetime.strptime` is modelled per format as a matcher that follows
  CPython's `_strptime` regexes (`%m ↦ 1[0-2]|0[1-9]|[1-9]`,
  `%d ↦ 3[01]|[12]\x5cd|0[1-9]|[1-9]`, `%Y ↦ four digits`, literal
  separators, anchored at both ends), followed by the `date()` constructor
  validity check.  Digits are modelled as ASCII digits.  For these formats
  every field is delimited by a literal separator, so a full regex match is
  unique when it exists; running the calendar-validity check inside the
  backtracking search (as done here) therefore agrees with CPython's
  match-first-then-validate behaviour.
* `sorted(..., key=...)` (a stable sort) is modelled by stable insertion
  sort `sortP`; Python string comparison is code-point lexicographic
  comparison, modelled by `charsLt`.
-/

/-! ## Calendar state ids (`STATE_IDS` in the source) -/

def cal_available : Nat := 5
def cal_in : Nat := 6
def cal_out : Nat := 7
def cal_inout : Nat := 8
def cal_booked : Nat := 9

/-! ## Dates -/

/-- A calendar date, as produced by `datetime.strptime(...).date()`. -/
structure Date where
  year : Nat
  month : Nat
  day : Nat
deriving DecidableEq, Repr

/-- Gregorian leap year, as in Python's `calendar.isleap` / `datetime`. -/
def isLeap (y : Nat) : Bool :=
  (y % 4 = 0 && y % 100 ≠ 0) || y % 400 = 0

/-- Days in a month of a given year. -/
def daysInMonth (y m : Nat) : Nat :=
  if m = 1 then 31 else if m = 2 then (if isLeap y then 29 else 28)
  else if m = 3 then 31 else if m = 4 then 30 else if m = 5 then 31
  else if m = 6 then 30 else if m = 7 then 31 else if m = 8 then 31
  else if m = 9 then 30 else if m = 10 then 31 else if m = 11 then 30
  else if m = 12 then 31 else 0

/-- The dates accepted by Python's `datetime.date(y, m, d)` constructor
(with the year bounded by the four-digit `%Y` field). -/
def isValidDate (d : Date) : Bool :=
  decide (1 ≤ d.year) && decide (d.year ≤ 9999) &&
  decide (1 ≤ d.month) && decide (d.month ≤ 12) &&
  decide (1 ≤ d.day) && decide (d.day ≤ daysInMonth d.year d.month)

/-- Cumulative days before month `m` in year `y`. -/
def daysBeforeMonth (y m : Nat) : Nat :=
  (List.range (m - 1)).foldl (fun acc i => acc + daysInMonth y (i + 1)) 0

/-- Proleptic Gregorian ordinal of a date — same numbering as Python's
`date.toordinal()` (0001-01-01 has ordinal 1). -/
def Date.toOrd (d : Date) : Nat :=
  365 * (d.year - 1) + (d.year - 1) / 4 - (d.year - 1) / 100 + (d.year - 1) / 400
    + daysBeforeMonth d.year d.month + d.day

/-- Ordinal of the date `y-m-d`. -/
def dOrd (y m d : Nat) : Nat := Date.toOrd ⟨y, m, d⟩

/-- `self.start_date = date(2026, 1, 1)`. -/
def ys2026 : Nat := dOrd 2026 1 1

/-- `self.end_date = date(2026, 12, 31)`. -/
def ye2026 : Nat := dOrd 2026 12 31

/-! ## `parse_date`: the four-format `strptime` fallback parser -/

/-- Numeric value of an ASCII digit character. -/
def charDigit (c : Char) : Nat := c.toNat - 48

/-- The `%m` field, CPython regex `1[0-2]|0[1-9]|[1-9]`: all regex
alternatives, in order, each with the unconsumed remainder. -/
def matchMonth : List Char → List (Nat × List Char)
  | c1 :: c2 :: rest =>
    (if c1 = '1' ∧ ('0' ≤ c2 ∧ c2 ≤ '2') then [(10 + charDigit c2, rest)] else []) ++
    (if c1 = '0' ∧ ('1' ≤ c2 ∧ c2 ≤ '9') then [(charDigit c2, rest)] else []) ++
    (if '1' ≤ c1 ∧ c1 ≤ '9' then [(charDigit c1, c2 :: rest)] else [])
  | [c1] => if '1' ≤ c1 ∧ c1 ≤ '9' then [(charDigit c1, [])] else []
  | [] => []

/-- The `%d` field, CPython regex `3[01]|[12]\x5cd|0[1-9]|[1-9]`. -/
def matchDay : List Char → List (Nat × List Char)
  | c1 :: c2 :: rest =>
    (if c1 = '3' ∧ (c2 = '0' ∨ c2 = '1') then [(30 + charDigit c2, rest)] else []) ++
    (if ('1' ≤ c1 ∧ c1 ≤ '2') ∧ c2.isDigit then [(10 * charDigit c1 + charDigit c2, rest)] else []) ++
    (if c1 = '0' ∧ ('1' ≤ c2 ∧ c2 ≤ '9') then [(charDigit c2, rest)] else []) ++
    (if '1' ≤ c1 ∧ c1 ≤ '9' then [(charDigit c1, c2 :: rest)] else [])
  | [c1] => if '1' ≤ c1 ∧ c1 ≤ '9' then [(charDigit c1, [])] else []
  | [] => []

/-- The `%Y` field, CPython regex: exactly four digits. -/
def matchYear : List Char → List (Nat × List Char)
  | c1 :: c2 :: c3 :: c4 :: rest =>
    if c1.isDigit ∧ c2.isDigit ∧ c3.isDigit ∧ c4.isDigit then
      [(1000 * charDigit c1 + 100 * charDigit c2 + 10 * charDigit c3 + charDigit c4, rest)]
    else []
  | _ => []

/-- A literal separator character in a `strptime` format. -/
def expectChar (c : Char) (cs : List Char) : Option (List Char) :=
  match cs with
  | c2 :: rest => if c2 = c then some rest else none
  | [] => none

/-- Regex phase of `strptime(s, "%m/%d/%Y")`: anchored full match,
backtracking over the field alternatives. -/
def regexMDYslash (cs : List Char) : Option (Nat × Nat × Nat) :=
  (matchMonth cs).findSome? fun mr =>
    (expectChar '/' mr.2).bind fun r2 =>
      (matchDay r2).findSome? fun dr =>
        (expectChar '/' dr.2).bind fun r4 =>
          (matchYear r4).findSome? fun yr =>
            if yr.2 = [] then some (yr.1, mr.1, dr.1) else none

/-- Regex phase of `strptime(s, "%Y-%m-%d")`. -/
def regexYMDdash (cs : List Char) : Option (Nat × Nat × Nat) :=
  (matchYear cs).findSome? fun yr =>
    (expectChar '-' yr.2).bind fun r2 =>
      (matchMonth r2).findSome? fun mr =>
        (expectChar '-' mr.2).bind fun r4 =>
          (matchDay r4).findSome? fun dr =>
            if dr.2 = [] then some (yr.1, mr.1, dr.1) else none

/-- Regex phase of `strptime(s, "%m-%d-%Y")`. -/
def regexMDYdash (cs : List Char) : Option (Nat × Nat × Nat) :=
  (matchMonth cs).findSome? fun mr =>
    (expectChar '-' mr.2).bind fun r2 =>
      (matchDay r2).findSome? fun dr =>
        (expectChar '-' dr.2).bind fun r4 =>
          (matchYear r4).findSome? fun yr =>
            if yr.2 = [] then some (yr.1, mr.1, dr.1) else none

/-- Regex phase of `strptime(s, "%d/%m/%Y")`. -/
def regexDMYslash (cs : List Char) : Option (Nat × Nat × Nat) :=
  (matchDay cs).findSome? fun dr =>
    (expectChar '/' dr.2).bind fun r2 =>
      (matchMonth r2).findSome? fun mr =>
        (expectChar '/' mr.2).bind fun r4 =>
          (matchYear r4).findSome? fun yr =>
            if yr.2 = [] then some (yr.1, mr.1, dr.1) else none

/-- The `date()` constructor: raises `ValueError` on an invalid calendar
date, modelled as `none`. -/
def mkValidDate (ymd : Nat × Nat × Nat) : Option Date :=
  if isValidDate ⟨ymd.1, ymd.2.1, ymd.2.2⟩ then some ⟨ymd.1, ymd.2.1, ymd.2.2⟩ else none

/-- `datetime.strptime(s, '%m/%d/%Y').date()`, `none` on `ValueError`. -/
def tryMDYslash (s : String) : Option Date := (regexMDYslash s.data).bind mkValidDate

/-- `datetime.strptime(s, '%Y-%m-%d').date()`, `none` on `ValueError`. -/
def tryYMDdash (s : String) : Option Date := (regexYMDdash s.data).bind mkValidDate

/-- `datetime.strptime(s, '%m-%d-%Y').date()`, `none` on `ValueError`. -/
def tryMDYdash (s : String) : Option Date := (regexMDYdash s.data).bind mkValidDate

/-- `datetime.strptime(s, '%d/%m/%Y').date()`, `none` on `ValueError`. -/
def tryDMYslash (s : String) : Option Date := (regexDMYslash s.data).bind mkValidDate

/-- `parse_date` from the source: try the formats
`['%m/%d/%Y', '%Y-%m-%d', '%m-%d-%Y', '%d/%m/%Y']` in order, return the
first success, `None` if all fail. -/
def parse_date (s : String) : Option Date :=
  [tryMDYslash, tryYMDdash, tryMDYdash, tryDMYslash].findSome? fun f => f s

/-! ## The state calculator (`calculate_states`) -/

/-- A blocked period dict from the Streamline response: `startdate` /
`enddate` are present-with-a-string-value or absent. -/
structure Period where
  startdate : Option String
  enddate : Option String
deriving DecidableEq, Repr

/-- `p.get('startdate', '')` — the sort key used by `calculate_states`. -/
def rawKey (p : Period) : String := p.startdate.getD ""

/-- Python string `<`: code-point lexicographic comparison (a strict
prefix is smaller). -/
def charsLt : List Char → List Char → Bool
  | [], [] => false
  | [], _ :: _ => true
  | _ :: _, [] => false
  | a :: as, b :: bs => if a < b then true else if b < a then false else charsLt as bs

/-- The total preorder realised by `sorted(blocked_periods, key=lambda p:
p.get('startdate', ''))`: place `x` no later than `y` iff the key of `y`
is not strictly below the key of `x`. -/
def leRaw (x y : Period) : Bool := !charsLt (rawKey y).data (rawKey x).data

/-- Stable insertion into a sorted list: `x` goes before the first `y`
with `le x y` (so after every earlier element with an equal key). -/
def insertP (le : α → α → Bool) (x : α) : List α → List α
  | [] => [x]
  | y :: ys => if le x y then x :: y :: ys else y :: insertP le x ys

/-- Stable insertion sort, modelling Python's stable `sorted`. -/
def sortP (le : α → α → Bool) : List α → List α
  | [] => []
  | x :: xs => insertP le x (sortP le xs)

/-- Python-dict assignment on an association list: replace in place if the
key exists, append otherwise. -/
def dictSet (m : List (Nat × Nat)) (k v : Nat) : List (Nat × Nat) :=
  match m with
  | [] => [(k, v)]
  | e :: es => if e.1 = k then (k, v) :: es else e :: dictSet es k v

/-- One day of the walk: the state assignment for `current_date`, given
the check-in transition table of the source (lines 232-258). -/
def applyDay (startO endO checkout : Nat) (states : List (Nat × Nat)) (cur : Nat) :
    List (Nat × Nat) :=
  if cur = startO then
    match List.lookup cur states with
    | none => dictSet states cur cal_in
    | some e =>
      if e = cal_in then dictSet states cur cal_in
      else if e = cal_out then dictSet states cur cal_inout
      else if e = cal_inout then dictSet states cur cal_inout
      else dictSet states cur cal_in
  else if cur = checkout then dictSet states cur cal_out
  else if startO < cur ∧ cur ≤ endO then dictSet states cur cal_booked
  else states

/-- The `while current_date < period_end` walk; `fuel` is the number of
remaining loop iterations (`period_end - current`), and the `ye < cur`
test is the `break` guarding against leaving the target year. -/
def processDays (ye startO endO checkout : Nat) : Nat → Nat → List (Nat × Nat) → List (Nat × Nat)
  | 0, _, states => states
  | fuel + 1, cur, states =>
    if ye < cur then states
    else processDays ye startO endO checkout fuel (cur + 1) (applyDay startO endO checkout states cur)

/-- The body of the `for period in sorted_periods` loop: skip periods with
a missing or empty date string, parse both dates (skipping on failure),
skip periods starting after `year_end`, clamp, and walk the days.

Model boundary: `checkout := endO + 1` totalizes the source's
`checkout_date = end + timedelta(days=1)` (line 206).  The source runs
that line before the `start > self.end_date` skip, and for the single
parsed end date `9999-12-31` (Python's `date.max`, reachable via
`parse_date "12/31/9999"`) it raises `OverflowError` — which the
`except ValueError` handler does not catch, aborting the whole
computation.  `periodOverflowB` names exactly these diverging periods;
theorems about out-of-range intervals are stated only for lists free of
them. -/
def processPeriod (ys ye : Nat) (states : List (Nat × Nat)) (p : Period) : List (Nat × Nat) :=
  match p.startdate, p.enddate with
  | some ss, some es =>
    if ss = "" ∨ es = "" then states
    else
      match parse_date ss, parse_date es with
      | some sd, some ed =>
        let startO := sd.toOrd
        let endO := ed.toOrd
        let checkout := endO + 1
        if ye < startO then states
        else
          let periodStart := max startO ys
          let periodEnd := if checkout ≤ ye then checkout + 1 else ye + 1
          processDays ye startO endO checkout (periodEnd - periodStart) periodStart states
      | _, _ => states
  | _, _ => states

/-- `AvailabilityUpdater.calculate_states`: sort the blocked periods by the
raw `startdate` string (stable) and process them in order.  The result maps
date ordinals (standing for the `%Y-%m-%d` keys) to state ids; absent dates
are available.  `calendar_id` is unused, as in the source. -/
def calculate_states (blocked_periods : List Period) (calendar_id : Nat) (ys ye : Nat) :
    List (Nat × Nat) :=
  (sortP leRaw blocked_periods).foldl (processPeriod ys ye) []

/-- Python `date` ordering (tuple comparison on year, month, day). -/
def dateLtB (a b : Date) : Bool :=
  decide (a.year < b.year) ||
    (decide (a.year = b.year) &&
      (decide (a.month < b.month) || (decide (a.month = b.month) && decide (a.day < b.day))))

/-- Modelled from the spec: the total preorder "sorted chronologically by
parsed start date" (§4.2 step 1), for the refinement comparison with the
raw-string sort actually performed by the code.  Periods without a parsable
start date are placed first. -/
def leChrono (x y : Period) : Bool :=
  match parse_date (rawKey x), parse_date (rawKey y) with
  | some a, some b => !dateLtB b a
  | none, _ => true
  | some _, none => false

/-- Modelled from the spec: `calculate_states` as §4.2 words it, with the
intervals processed in chronological order of their parsed start dates
(stable), everything else as in the code. -/
def calculate_states_chronological (blocked_periods : List Period) (calendar_id : Nat)
    (ys ye : Nat) : List (Nat × Nat) :=
  (sortP leChrono blocked_periods).foldl (processPeriod ys ye) []

/-! ## The reconciler (`_update_database`) and the persisted table

The `availability_calendar_availability` table is modelled as an
association list from `(cid, date-ordinal)` keys to `sid` values; the
table invariant (§3) is that keys are unique.  The only environmental
failure modelled is the one the reconciler reacts to: a pre-fetch batch
may fail (`fetchFail`), and an insert raises a duplicate-key error exactly
when the key is already present.  Inserts and updates themselves succeed. -/

abbrev DB := List ((Nat × Nat) × Nat)

/-- `select('date, sid').eq('cid', cid).in_('date', batch)`. -/
def dbFetch (db : DB) (cid : Nat) (batch : List Nat) : List (Nat × Nat) :=
  db.filterMap fun r => if r.1.1 = cid ∧ r.1.2 ∈ batch then some (r.1.2, r.2) else none

/-- `update({'sid': v}).eq('cid', cid).eq('date', d)`. -/
def dbSet (db : DB) (cid d v : Nat) : DB :=
  db.map fun r => if r.1 = (cid, d) then ((cid, d), v) else r

/-- `insert({'cid': cid, 'date': d, 'sid': v})` after a successful
(non-duplicate) write. -/
def dbInsert (db : DB) (cid d v : Nat) : DB := db ++ [((cid, d), v)]

/-- `batch_size = 100` chunking: `date_list[i:i+100]` for
`i in range(0, len(date_list), 100)`; `fuel` bounds the recursion. -/
def chunks100Aux : Nat → List Nat → List (List Nat)
  | 0, _ => []
  | _, [] => []
  | fuel + 1, l@(_ :: _) => l.take 100 :: chunks100Aux fuel (l.drop 100)

def chunks100 (l : List Nat) : List (List Nat) := chunks100Aux l.length l

/-- `for record in (existing_result.data or []): existing[record['date']]
= record['sid']` — fold the fetched rows into the dict. -/
def dictInsertRows (acc : List (Nat × Nat)) (rows : List (Nat × Nat)) : List (Nat × Nat) :=
  rows.foldl (fun a r => dictSet a r.1 r.2) acc

/-- One batch of the pre-fetch: a failing query is skipped (`continue`),
a successful one merges its rows into the dict. -/
def fetchBatchStep (cid : Nat) (db : DB) (fetchFail : List Nat → Bool)
    (acc : List (Nat × Nat)) (batch : List Nat) : List (Nat × Nat) :=
  if fetchFail batch then acc else dictInsertRows acc (dbFetch db cid batch)

/-- The pre-fetch of existing rows (source lines 366-387): fetch each
batch of 100 dates, skip a batch whose query raises, and accumulate the
rows into a dict keyed by date. -/
def fetch_existing (cid : Nat) (states : List (Nat × Nat)) (db : DB)
    (fetchFail : List Nat → Bool) : List (Nat × Nat) :=
  (chunks100 (states.map (·.1))).foldl (fetchBatchStep cid db fetchFail) []

/-- Result of `_update_database`: the returned `(inserted, updated)`
counters together with the table left behind. -/
structure UpdResult where
  inserted : Nat
  updated : Nat
  db : DB
deriving DecidableEq

/-- One iteration of the `for date_str, sid in states.items()` loop
(source lines 390-425): update when a pre-fetched row differs, skip when
it matches, otherwise insert — converting a duplicate-key error into an
update counted under `updated`. -/
def applyState (cid : Nat) (existing : List (Nat × Nat)) (acc : UpdResult)
    (ds : Nat × Nat) : UpdResult :=
  match List.lookup ds.1 existing with
  | some old =>
    if old ≠ ds.2 then
      { acc with updated := acc.updated + 1, db := dbSet acc.db cid ds.1 ds.2 }
    else acc
  | none =>
    if (List.lookup (cid, ds.1) acc.db).isSome then
      { acc with updated := acc.updated + 1, db := dbSet acc.db cid ds.1 ds.2 }
    else
      { acc with inserted := acc.inserted + 1, db := dbInsert acc.db cid ds.1 ds.2 }

/-- `AvailabilityUpdater._update_database`. -/
def update_database (cid : Nat) (states : List (Nat × Nat)) (db : DB)
    (fetchFail : List Nat → Bool) : UpdResult :=
  states.foldl (applyState cid (fetch_existing cid states db fetchFail)) ⟨0, 0, db⟩

/-! ## The per-property pipeline (`update_cabin_availability`) -/

/-- `AvailabilityUpdater._delete_2026_availability`:
`delete().eq('cid', cid).gte('date', start).lte('date', end)`. -/
def delete_availability (cid ys ye : Nat) (db : DB) : DB :=
  db.filter fun r => !(decide (r.1.1 = cid) && decide (ys ≤ r.1.2) && decide (r.1.2 ≤ ye))

/-- The `data['blocked_period']` field: either a single period dict or a
list of period dicts. -/
inductive BlockedVal where
  | single (p : Period)
  | plural (ps : List Period)
deriving DecidableEq

/-- The `data` member of a Streamline response. -/
structure RData where
  blocked_period : Option BlockedVal
deriving DecidableEq

/-- A truthy (non-empty) JSON-dict response from the Streamline API;
`data = none` models a response without a `data` key (`get('data', {})`). -/
structure Resp where
  data : Option RData
deriving DecidableEq

/-- Blocked-period extraction (source lines 303-314): a single dict is
kept only if it has a `startdate` key; a list is taken wholesale. -/
def extract_blocked (r : Resp) : List Period :=
  match r.data with
  | none => []
  | some rd =>
    match rd.blocked_period with
    | none => []
    | some (.single p) => if p.startdate.isSome then [p] else []
    | some (.plural ps) => ps

/-- `AvailabilityUpdater.update_cabin_availability` after the fetch:
no data means skip; no blocked periods means delete the year's rows and
report `(0, 0)`; an empty computed map means skip; otherwise reconcile. -/
def update_cabin_availability (cid : Nat) (fetchResult : Option Resp) (db : DB)
    (fetchFail : List Nat → Bool) : UpdResult :=
  match fetchResult with
  | none => ⟨0, 0, db⟩
  | some r =>
    let bps := extract_blocked r
    if bps.isEmpty then ⟨0, 0, delete_availability cid ys2026 ye2026 db⟩
    else
      let states := calculate_states bps cid ys2026 ye2026
      if states.isEmpty then ⟨0, 0, db⟩
      else update_database cid states db fetchFail

/-! ## The Streamline fetch (`fetch_streamline_availability`) -/

/-- Outcome of the HTTP call underlying `fetch_streamline_availability`:
either a transport-level failure (network error, timeout, or non-2xx
status raised by `raise_for_status`) or a parsed JSON dict carrying an
optional numeric `status.code`. -/
inductive FetchOutcome where
  | transportError
  | ok (statusCode : Option Int) (resp : Resp)

/-- `fetch_streamline_availability`: every transport error returns `None`;
a response whose `status.code` is present and non-zero (including the
property-not-found case) returns `None`; otherwise the data is returned. -/
def fetch_result : FetchOutcome → Option Resp
  | .transportError => none
  | .ok code r =>
    match code with
    | some c => if c ≠ 0 then none else some r
    | none => some r

/-! ## The batch loop (`run`) -/

/-- A row of `cabin_calendar_mapping`; `none` models a missing value. -/
structure Cabin where
  calendar_id : Option Nat
  streamline_id : Option Nat
deriving DecidableEq

/-- What `update_cabin_availability` did for one cabin: raised an
exception, or completed with the returned `(inserted, updated)`. -/
inductive ProcResult where
  | raised
  | completed (inserted updated : Nat)
deriving DecidableEq

/-- The batch counters printed in the summary. -/
structure Summary where
  successful : Nat
  skipped : Nat
  failed : Nat
  totalInserted : Nat
  totalUpdated : Nat
deriving DecidableEq

/-- One iteration of the `for i, cabin in enumerate(cabins, 1)` loop
(source lines 448-479): a falsy (`None` or `0`) id is skipped; an
exception is a failure; a completed call with zero inserted and zero
updated rows is counted as skipped, anything else as successful. -/
def runStep (proc : Nat → Nat → ProcResult) (acc : Summary) (c : Cabin) : Summary :=
  match c.calendar_id, c.streamline_id with
  | some cid, some sid =>
    if cid = 0 ∨ sid = 0 then { acc with skipped := acc.skipped + 1 }
    else
      match proc cid sid with
      | .raised => { acc with failed := acc.failed + 1 }
      | .completed i u =>
        if i = 0 ∧ u = 0 then { acc with skipped := acc.skipped + 1 }
        else
          { acc with successful := acc.successful + 1,
                     totalInserted := acc.totalInserted + i,
                     totalUpdated := acc.totalUpdated + u }
  | _, _ => { acc with skipped := acc.skipped + 1 }

/-- `AvailabilityUpdater.run`: fold the per-cabin accounting over the
cabin list, starting from zero counters. -/
def run_summary (cabins : List Cabin) (proc : Nat → Nat → ProcResult) : Summary :=
  cabins.foldl (runStep proc) ⟨0, 0, 0, 0, 0⟩

/-! ## Concrete runs of the state calculator (claims C1, C5, and the
counterexamples for C2, C4, C8) -/

/-- C1 (counterexample): on the intervals `2026-02-01..2026-02-07` and
`2026-02-07..2026-02-10` the code yields `CHECK_IN` on `2026-02-07`, not
`TURN_AROUND`: the second interval starts on the last reserved night of
the first (end dates are inclusive), so the check-in transition sees a
prior `BOOKED` — not a prior `CHECK_OUT` — and overwrites it with
`CHECK_IN` (source lines 248-250). -/
theorem c1_counterexample :
    List.lookup (dOrd 2026 2 7)
      (calculate_states
        [⟨some "2026-02-01", some "2026-02-07"⟩, ⟨some "2026-02-07", some "2026-02-10"⟩]
        1 ys2026 ye2026) = some cal_in ∧ cal_in ≠ cal_inout := by
  decide

/-- C1 (amended): for the intervals `2026-02-01..2026-02-07` and
`2026-02-07..2026-02-10` in the 2026 range, `calculate_states` returns
exactly the map `02-01 = CHECK_IN`, `02-02..02-06 = BOOKED`,
`02-07 = CHECK_IN` (not `TURN_AROUND`), `02-08..02-10 = BOOKED`,
`02-11 = CHECK_OUT`, and no other entries (the association list has
unique keys, so this equality determines the whole map). -/
theorem c1_amended_map :
    calculate_states
        [⟨some "2026-02-01", some "2026-02-07"⟩, ⟨some "2026-02-07", some "2026-02-10"⟩]
        1 ys2026 ye2026 =
      [(dOrd 2026 2 1, cal_in), (dOrd 2026 2 2, cal_booked), (dOrd 2026 2 3, cal_booked),
       (dOrd 2026 2 4, cal_booked), (dOrd 2026 2 5, cal_booked), (dOrd 2026 2 6, cal_booked),
       (dOrd 2026 2 7, cal_in), (dOrd 2026 2 8, cal_booked), (dOrd 2026 2 9, cal_booked),
       (dOrd 2026 2 10, cal_booked), (dOrd 2026 2 11, cal_out)] := by
  decide

/-- C5: a single isolated interval `2026-06-10..2026-06-12` in the 2026
range produces exactly `06-10 = CHECK_IN`, `06-11 = BOOKED`,
`06-12 = BOOKED`, `06-13 = CHECK_OUT` and no entry for any other date. -/
theorem c5_isolated_interval :
    calculate_states [⟨some "2026-06-10", some "2026-06-12"⟩] 1 ys2026 ye2026 =
      [(dOrd 2026 6 10, cal_in), (dOrd 2026 6 11, cal_booked),
       (dOrd 2026 6 12, cal_booked), (dOrd 2026 6 13, cal_out)] := by
  decide

/-- C2 (counterexample): `calculate_states` sorts by the raw `startdate`
string, so with `MM/DD/YYYY` dates across a year boundary
(`12/31/2025` vs `01/06/2026`) the intervals are visited in
anti-chronological order and the computed map differs from the
chronologically-processed one: the code records `CHECK_OUT` on
`2026-01-06` where chronological processing records `TURN_AROUND`. -/
theorem c2_counterexample :
    parse_date "12/31/2025" = some ⟨2025, 12, 31⟩ ∧
    parse_date "01/06/2026" = some ⟨2026, 1, 6⟩ ∧
    List.lookup (dOrd 2026 1 6)
      (calculate_states
        [⟨some "12/31/2025", some "01/05/2026"⟩, ⟨some "01/06/2026", some "01/10/2026"⟩]
        1 ys2026 ye2026) = some cal_out ∧
    List.lookup (dOrd 2026 1 6)
      (calculate_states_chronological
        [⟨some "12/31/2025", some "01/05/2026"⟩, ⟨some "01/06/2026", some "01/10/2026"⟩]
        1 ys2026 ye2026) = some cal_inout ∧
    cal_out ≠ cal_inout := by
  decide

/-- C8 (counterexample): an interval lying entirely before `year_start`
(`12/20/2025..12/31/2025`, both dates before `2026-01-01`) does contribute
an entry: its checkout day `end + 1` is `year_start` itself, which the walk
marks `CHECK_OUT` — so the output is not the output computed without the
interval (which is empty). -/
theorem c8_counterexample :
    parse_date "12/20/2025" = some ⟨2025, 12, 20⟩ ∧
    parse_date "12/31/2025" = some ⟨2025, 12, 31⟩ ∧
    dOrd 2025 12 31 < ys2026 ∧
    calculate_states [⟨some "12/20/2025", some "12/31/2025"⟩] 1 ys2026 ye2026 =
      [(ys2026, cal_out)] ∧
    calculate_states [] 1 ys2026 ye2026 = [] := by
  decide

/-- C4 (counterexample): an empty computed state map does not imply that
the persisted rows are deleted.  With one blocked period entirely in 2027
the computed map is empty, but `update_cabin_availability` takes the
`if not states` branch and returns `(0, 0)` leaving the stale 2026 row in
place — only an empty *blocked-period list* triggers the deletion. -/
theorem c4_counterexample :
    calculate_states [⟨some "01/01/2027", some "01/05/2027"⟩] 1 ys2026 ye2026 = [] ∧
    update_cabin_availability 1
        (some ⟨some ⟨some (.plural [⟨some "01/01/2027", some "01/05/2027"⟩])⟩⟩)
        [((1, dOrd 2026 3 3), cal_booked)] (fun _ => false) =
      ⟨0, 0, [((1, dOrd 2026 3 3), cal_booked)]⟩ := by
  decide

/-! ## C9: fetch errors are skips, not "fully available" -/

/-- C9: a transport error or a non-zero API status code makes
`fetch_streamline_availability` return `None`, and the pipeline then
returns `(0, 0)` touching nothing — in contrast with a valid response
carrying no blocked data, which deletes the calendar's 2026 rows. -/
theorem c9_fetch_error_skip :
    (∀ (cid : Nat) (db : DB) (ff : List Nat → Bool),
      fetch_result .transportError = none ∧
      update_cabin_availability cid (fetch_result .transportError) db ff = ⟨0, 0, db⟩) ∧
    (∀ (c : Int) (r : Resp) (cid : Nat) (db : DB) (ff : List Nat → Bool), c ≠ 0 →
      fetch_result (.ok (some c) r) = none ∧
      update_cabin_availability cid (fetch_result (.ok (some c) r)) db ff = ⟨0, 0, db⟩) ∧
    (∀ (r : Resp) (cid : Nat) (db : DB) (ff : List Nat → Bool), extract_blocked r = [] →
      fetch_result (.ok (some 0) r) = some r ∧
      update_cabin_availability cid (fetch_result (.ok (some 0) r)) db ff =
        ⟨0, 0, delete_availability cid ys2026 ye2026 db⟩) := by
  refine ⟨fun cid db ff => ⟨rfl, rfl⟩, fun c r cid db ff hc => ?_, fun r cid db ff hr => ?_⟩
  · have h : fetch_result (.ok (some c) r) = none := by
      simp [fetch_result, hc]
    exact ⟨h, by rw [h]; rfl⟩
  · have h : fetch_result (.ok (some 0) r) = some r := by
      simp [fetch_result]
    refine ⟨h, ?_⟩
    rw [h]
    simp [update_cabin_availability, hr]

/-- Witness for C9 at a concrete error code, response and table. -/
theorem c9_witness :
    update_cabin_availability 1 (fetch_result .transportError)
        [((1, dOrd 2026 3 3), cal_booked)] (fun _ => false) =
      ⟨0, 0, [((1, dOrd 2026 3 3), cal_booked)]⟩ ∧
    update_cabin_availability 1 (fetch_result (.ok (some 5) ⟨none⟩))
        [((1, dOrd 2026 3 3), cal_booked)] (fun _ => false) =
      ⟨0, 0, [((1, dOrd 2026 3 3), cal_booked)]⟩ ∧
    update_cabin_availability 1 (fetch_result (.ok (some 0) ⟨none⟩))
        [((1, dOrd 2026 3 3), cal_booked)] (fun _ => false) =
      ⟨0, 0, delete_availability 1 ys2026 ye2026 [((1, dOrd 2026 3 3), cal_booked)]⟩ :=
  ⟨(c9_fetch_error_skip.1 1 _ _).2,
   (c9_fetch_error_skip.2.1 5 ⟨none⟩ 1 _ _ (by decide)).2,
   (c9_fetch_error_skip.2.2 ⟨none⟩ 1 _ _ rfl).2⟩

/-! ## C4 (amended): deletion happens exactly on an empty blocked list -/

/-- C4 (amended): when the fetched response contains no blocked periods
the pipeline deletes every persisted row of that calendar with a date in
`[year_start, year_end]` (and only those) and returns `(0, 0)`; when
blocked periods exist but the computed map is empty (all intervals out of
range) it returns `(0, 0)` without touching the table. -/
theorem c4_amended :
    (∀ (cid : Nat) (r : Resp) (db : DB) (ff : List Nat → Bool), extract_blocked r = [] →
      update_cabin_availability cid (some r) db ff =
        ⟨0, 0, delete_availability cid ys2026 ye2026 db⟩ ∧
      ∀ row, row ∈ delete_availability cid ys2026 ye2026 db ↔
        row ∈ db ∧ ¬(row.1.1 = cid ∧ ys2026 ≤ row.1.2 ∧ row.1.2 ≤ ye2026)) ∧
    (∀ (cid : Nat) (r : Resp) (db : DB) (ff : List Nat → Bool),
      extract_blocked r ≠ [] →
      calculate_states (extract_blocked r) cid ys2026 ye2026 = [] →
      update_cabin_availability cid (some r) db ff = ⟨0, 0, db⟩) := by
  constructor
  · intro cid r db ff h
    constructor
    · simp [update_cabin_availability, h]
    · intro row
      simp only [delete_availability, List.mem_filter, Bool.not_eq_true']
      constructor
      · rintro ⟨hm, hb⟩
        refine ⟨hm, fun hc => ?_⟩
        simp [hc.1, hc.2.1, hc.2.2] at hb
      · rintro ⟨hm, hb⟩
        refine ⟨hm, ?_⟩
        by_contra hb2
        simp only [Bool.not_eq_false, Bool.and_eq_true, decide_eq_true_eq] at hb2
        exact hb ⟨hb2.1.1, hb2.1.2, hb2.2⟩
  · intro cid r db ff h1 h2
    have hne : (extract_blocked r).isEmpty = false := by
      cases h : extract_blocked r with
      | nil => exact absurd h h1
      | cons a l => simp [List.isEmpty]
    simp [update_cabin_availability, hne, h2]

/-- Witness for C4 (amended): a response with an empty blocked list and a
response whose single blocked period lies wholly in 2027. -/
theorem c4_amended_witness :
    update_cabin_availability 7 (some ⟨some ⟨none⟩⟩)
        [((7, dOrd 2026 3 3), cal_booked), ((8, dOrd 2026 3 3), cal_in)] (fun _ => false) =
      ⟨0, 0, delete_availability 7 ys2026 ye2026
        [((7, dOrd 2026 3 3), cal_booked), ((8, dOrd 2026 3 3), cal_in)]⟩ ∧
    update_cabin_availability 7
        (some ⟨some ⟨some (.plural [⟨some "02/01/2027", some "02/03/2027"⟩])⟩⟩)
        [((7, dOrd 2026 3 3), cal_booked)] (fun _ => false) =
      ⟨0, 0, [((7, dOrd 2026 3 3), cal_booked)]⟩ :=
  ⟨((c4_amended.1 7 ⟨some ⟨none⟩⟩ _ _ rfl).1),
   c4_amended.2 7 _ _ _ (by decide) (by decide)⟩

/-! ## C10: zero-write properties are counted as skipped -/

/-- A cabin the summary loop counts under `skipped`: missing or falsy
ids, or a completed call that inserted and updated nothing. -/
def cabinSkippedB (proc : Nat → Nat → ProcResult) (c : Cabin) : Bool :=
  match c.calendar_id, c.streamline_id with
  | some cid, some sid =>
    if cid = 0 ∨ sid = 0 then true
    else
      match proc cid sid with
      | .raised => false
      | .completed i u => decide (i = 0) && decide (u = 0)
  | _, _ => true

/-- A cabin the summary loop counts under `successful`: a completed call
that inserted or updated at least one row. -/
def cabinSuccessB (proc : Nat → Nat → ProcResult) (c : Cabin) : Bool :=
  match c.calendar_id, c.streamline_id with
  | some cid, some sid =>
    if cid = 0 ∨ sid = 0 then false
    else
      match proc cid sid with
      | .raised => false
      | .completed i u => !(decide (i = 0) && decide (u = 0))
  | _, _ => false

/-- A cabin the summary loop counts under `failed`: the processing call
raised. -/
def cabinFailedB (proc : Nat → Nat → ProcResult) (c : Cabin) : Bool :=
  match c.calendar_id, c.streamline_id with
  | some cid, some sid =>
    if cid = 0 ∨ sid = 0 then false
    else
      match proc cid sid with
      | .raised => true
      | .completed _ _ => false
  | _, _ => false

theorem runStep_skipped (proc : Nat → Nat → ProcResult) (acc : Summary) (c : Cabin) :
    (runStep proc acc c).skipped = acc.skipped + (if cabinSkippedB proc c then 1 else 0) := by
  rcases c with ⟨cid?, sid?⟩
  rcases cid? with _ | cid <;> rcases sid? with _ | sid
  · simp [runStep, cabinSkippedB]
  · simp [runStep, cabinSkippedB]
  · simp [runStep, cabinSkippedB]
  · by_cases h0 : cid = 0 ∨ sid = 0
    · simp [runStep, cabinSkippedB, h0]
    · rcases hp : proc cid sid with _ | ⟨i, u⟩
      · simp [runStep, cabinSkippedB, h0, hp]
      · by_cases hi : i = 0 ∧ u = 0
        · simp [runStep, cabinSkippedB, h0, hp, hi, hi.1, hi.2]
        · simp [runStep, cabinSkippedB, h0, hp, hi]

theorem runStep_successful (proc : Nat → Nat → ProcResult) (acc : Summary) (c : Cabin) :
    (runStep proc acc c).successful =
      acc.successful + (if cabinSuccessB proc c then 1 else 0) := by
  rcases c with ⟨cid?, sid?⟩
  rcases cid? with _ | cid <;> rcases sid? with _ | sid
  · simp [runStep, cabinSuccessB]
  · simp [runStep, cabinSuccessB]
  · simp [runStep, cabinSuccessB]
  · by_cases h0 : cid = 0 ∨ sid = 0
    · simp [runStep, cabinSuccessB, h0]
    · rcases hp : proc cid sid with _ | ⟨i, u⟩
      · simp [runStep, cabinSuccessB, h0, hp]
      · by_cases hi : i = 0 ∧ u = 0
        · simp [runStep, cabinSuccessB, h0, hp, hi, hi.1, hi.2]
        · simp [runStep, cabinSuccessB, h0, hp, hi]
          rw [if_pos (Decidable.not_and_iff_or_not.mp hi)]

theorem runStep_failed (proc : Nat → Nat → ProcResult) (acc : Summary) (c : Cabin) :
    (runStep proc acc c).failed = acc.failed + (if cabinFailedB proc c then 1 else 0) := by
  rcases c with ⟨cid?, sid?⟩
  rcases cid? with _ | cid <;> rcases sid? with _ | sid
  · simp [runStep, cabinFailedB]
  · simp [runStep, cabinFailedB]
  · simp [runStep, cabinFailedB]
  · by_cases h0 : cid = 0 ∨ sid = 0
    · simp [runStep, cabinFailedB, h0]
    · rcases hp : proc cid sid with _ | ⟨i, u⟩
      · simp [runStep, cabinFailedB, h0, hp]
      · by_cases hi : i = 0 ∧ u = 0
        · simp [runStep, cabinFailedB, h0, hp, hi, hi.1, hi.2]
        · simp [runStep, cabinFailedB, h0, hp, hi]

theorem foldl_runStep_skipped (proc : Nat → Nat → ProcResult) :
    ∀ (cabins : List Cabin) (acc : Summary),
      (cabins.foldl (runStep proc) acc).skipped =
        acc.skipped + cabins.countP (cabinSkippedB proc) := by
  intro cabins
  induction cabins with
  | nil => intro acc; simp
  | cons c cs ih =>
    intro acc
    rw [List.foldl_cons, ih, runStep_skipped, List.countP_cons]
    by_cases h : cabinSkippedB proc c <;> simp [h] <;> omega

theorem foldl_runStep_successful (proc : Nat → Nat → ProcResult) :
    ∀ (cabins : List Cabin) (acc : Summary),
      (cabins.foldl (runStep proc) acc).successful =
        acc.successful + cabins.countP (cabinSuccessB proc) := by
  intro cabins
  induction cabins with
  | nil => intro acc; simp
  | cons c cs ih =>
    intro acc
    rw [List.foldl_cons, ih, runStep_successful, List.countP_cons]
    by_cases h : cabinSuccessB proc c <;> simp [h] <;> omega

theorem foldl_runStep_failed (proc : Nat → Nat → ProcResult) :
    ∀ (cabins : List Cabin) (acc : Summary),
      (cabins.foldl (runStep proc) acc).failed =
        acc.failed + cabins.countP (cabinFailedB proc) := by
  intro cabins
  induction cabins with
  | nil => intro acc; simp
  | cons c cs ih =>
    intro acc
    rw [List.foldl_cons, ih, runStep_failed, List.countP_cons]
    by_cases h : cabinFailedB proc c <;> simp [h] <;> omega

theorem foldl_runStep_allzero (proc : Nat → Nat → ProcResult)
    (hz : ∀ cid sid, proc cid sid = .completed 0 0) :
    ∀ (cabins : List Cabin) (acc : Summary),
      cabins.foldl (runStep proc) acc = { acc with skipped := acc.skipped + cabins.length } := by
  intro cabins
  induction cabins with
  | nil => intro acc; simp
  | cons c cs ih =>
    intro acc
    rw [List.foldl_cons, ih]
    have hstep : runStep proc acc c = { acc with skipped := acc.skipped + 1 } := by
      rcases c with ⟨cid?, sid?⟩
      rcases cid? with _ | cid <;> rcases sid? with _ | sid <;> simp only [runStep]
      by_cases h0 : cid = 0 ∨ sid = 0
      · simp [h0]
      · simp [h0, hz cid sid]
    rw [hstep]
    simp
    omega

/-- C10: in the batch summary, a property whose processing completes
without raising but inserts and updates nothing is counted under
`skipped`, never under `successful` (the counts are exactly the number of
cabins in each class); consequently, when every processed property
completes with `(0, 0)` — e.g. a re-run in which nothing changed — the
summary reports every cabin under `skipped`. -/
theorem c10_zero_write_skipped :
    (∀ (cabins : List Cabin) (proc : Nat → Nat → ProcResult),
      (run_summary cabins proc).skipped = cabins.countP (cabinSkippedB proc) ∧
      (run_summary cabins proc).successful = cabins.countP (cabinSuccessB proc) ∧
      (run_summary cabins proc).failed = cabins.countP (cabinFailedB proc)) ∧
    (∀ (cabins : List Cabin) (proc : Nat → Nat → ProcResult),
      (∀ cid sid, proc cid sid = .completed 0 0) →
      run_summary cabins proc = ⟨0, cabins.length, 0, 0, 0⟩) := by
  constructor
  · intro cabins proc
    refine ⟨?_, ?_, ?_⟩
    · rw [run_summary, foldl_runStep_skipped]; simp
    · rw [run_summary, foldl_runStep_successful]; simp
    · rw [run_summary, foldl_runStep_failed]; simp
  · intro cabins proc hz
    rw [run_summary, foldl_runStep_allzero proc hz]
    simp

/-- Witness for C10: three cabins — one valid with a clean zero-write
completion, one with a missing id, one with a falsy id — all reported
under `skipped`. -/
theorem c10_witness :
    run_summary [⟨some 1, some 2⟩, ⟨none, some 3⟩, ⟨some 4, some 0⟩]
        (fun _ _ => .completed 0 0) =
      ⟨0, 3, 0, 0, 0⟩ :=
  c10_zero_write_skipped.2 _ _ (fun _ _ => rfl)

/-! ## C6: format priority of `parse_date` -/

/-- C6: `parse_date` returns the result of the first format among
`MM/DD/YYYY`, `YYYY-MM-DD`, `MM-DD-YYYY`, `DD/MM/YYYY` (in that order)
that parses the string, and fails exactly when all four fail; in
particular `"01/02/2026"` is January 2, 2026 via the first branch, and
`"2026-06-10"` is June 10, 2026 via the `YYYY-MM-DD` branch after the
`MM/DD/YYYY` branch fails. -/
theorem c6_parse_date_priority :
    (∀ s : String, parse_date s =
      ((tryMDYslash s).orElse fun _ =>
        ((tryYMDdash s).orElse fun _ =>
          ((tryMDYdash s).orElse fun _ => tryDMYslash s)))) ∧
    (∀ s : String, (parse_date s = none ↔
      tryMDYslash s = none ∧ tryYMDdash s = none ∧
        tryMDYdash s = none ∧ tryDMYslash s = none)) ∧
    parse_date "01/02/2026" = some ⟨2026, 1, 2⟩ ∧
    tryMDYslash "01/02/2026" = some ⟨2026, 1, 2⟩ ∧
    parse_date "2026-06-10" = some ⟨2026, 6, 10⟩ ∧
    tryMDYslash "2026-06-10" = none ∧
    tryYMDdash "2026-06-10" = some ⟨2026, 6, 10⟩ := by
  have key : ∀ s : String, parse_date s =
      ((tryMDYslash s).orElse fun _ =>
        ((tryYMDdash s).orElse fun _ =>
          ((tryMDYdash s).orElse fun _ => tryDMYslash s))) := by
    intro s
    simp only [parse_date, List.findSome?]
    cases tryMDYslash s <;> cases tryYMDdash s <;> cases tryMDYdash s <;>
      cases tryDMYslash s <;> rfl
  refine ⟨key, fun s => ?_, by decide, by decide, by decide, by decide, by decide⟩
  rw [key s]
  cases tryMDYslash s <;> cases tryYMDdash s <;> cases tryMDYdash s <;>
    cases tryDMYslash s <;> simp [Option.orElse]

/-- Witness for C6: the first-format-wins equation and the all-fail
characterisation evaluated at concrete strings. -/
theorem c6_witness :
    (parse_date "1/2/2026" =
      ((tryMDYslash "1/2/2026").orElse fun _ =>
        ((tryYMDdash "1/2/2026").orElse fun _ =>
          ((tryMDYdash "1/2/2026").orElse fun _ => tryDMYslash "1/2/2026")))) ∧
    (parse_date "not a date" = none ↔
      tryMDYslash "not a date" = none ∧ tryYMDdash "not a date" = none ∧
        tryMDYdash "not a date" = none ∧ tryDMYslash "not a date" = none) :=
  ⟨c6_parse_date_priority.1 "1/2/2026", c6_parse_date_priority.2.1 "not a date"⟩

/-! ## Association-list lemmas for the reconciler proofs -/

theorem lookup_cons_ite {α β : Type} [BEq α] [LawfulBEq α] [DecidableEq α] (j k : α) (v : β)
    (l : List (α × β)) :
    List.lookup j ((k, v) :: l) = if j = k then some v else List.lookup j l := by
  rw [List.lookup_cons]
  by_cases h : j = k
  · simp [h]
  · have hb : (j == k) = false := by simp [h]
    simp [hb, h]

theorem lookup_append_or {α β : Type} [BEq α] [LawfulBEq α] [DecidableEq α] (j : α) :
    ∀ (l1 l2 : List (α × β)),
      List.lookup j (l1 ++ l2) =
        ((List.lookup j l1).orElse fun _ => List.lookup j l2) := by
  intro l1
  induction l1 with
  | nil => intro l2; simp [Option.orElse]
  | cons e l ih =>
    intro l2
    rcases e with ⟨k, v⟩
    rw [List.cons_append, lookup_cons_ite, lookup_cons_ite]
    by_cases h : j = k
    · simp [h, Option.orElse]
    · simp [h, ih]

theorem lookup_none_not_memkey {α β : Type} [BEq α] [LawfulBEq α] [DecidableEq α] (j : α) :
    ∀ l : List (α × β), List.lookup j l = none ↔ j ∉ l.map Prod.fst := by
  intro l
  induction l with
  | nil => simp
  | cons e l ih =>
    rcases e with ⟨k, v⟩
    rw [lookup_cons_ite]
    by_cases h : j = k
    · simp [h]
    · simp [h, ih]

theorem lookup_some_mem {α β : Type} [BEq α] [LawfulBEq α] [DecidableEq α] (j : α) (v : β) :
    ∀ l : List (α × β), List.lookup j l = some v → (j, v) ∈ l := by
  intro l
  induction l with
  | nil => simp
  | cons e l ih =>
    rcases e with ⟨k, w⟩
    rw [lookup_cons_ite]
    by_cases h : j = k
    · intro hv
      simp only [if_pos h] at hv
      cases hv
      simp [h]
    · intro hv
      rw [if_neg h] at hv
      exact List.mem_cons_of_mem _ (ih hv)

theorem lookup_dictSet (k v j : Nat) :
    ∀ m : List (Nat × Nat),
      List.lookup j (dictSet m k v) = if j = k then some v else List.lookup j m := by
  intro m
  induction m with
  | nil => simp [dictSet, lookup_cons_ite]
  | cons e m ih =>
    rcases e with ⟨k2, v2⟩
    by_cases hk : k2 = k
    · subst hk
      rw [dictSet, if_pos rfl, lookup_cons_ite, lookup_cons_ite]
      by_cases hj : j = k2
      · simp [hj]
      · simp [hj]
    · rw [dictSet]
      simp only [hk, if_false]
      rw [lookup_cons_ite, lookup_cons_ite, ih]
      by_cases hj : j = k2
      · subst hj
        simp [hk]
      · simp [hj]

theorem lookup_dictInsertRows (j : Nat) :
    ∀ (rows : List (Nat × Nat)) (acc : List (Nat × Nat)),
      (rows.map Prod.fst).Nodup →
      List.lookup j (dictInsertRows acc rows) =
        ((List.lookup j rows).orElse fun _ => List.lookup j acc) := by
  intro rows
  induction rows with
  | nil => intro acc _; simp [dictInsertRows, Option.orElse]
  | cons r rows ih =>
    intro acc hnd
    rcases r with ⟨k, v⟩
    simp only [List.map_cons, List.nodup_cons] at hnd
    have step : dictInsertRows acc ((k, v) :: rows) = dictInsertRows (dictSet acc k v) rows := rfl
    rw [step, ih _ hnd.2, lookup_cons_ite]
    by_cases h : j = k
    · subst h
      have : List.lookup j rows = none := by
        rw [lookup_none_not_memkey]
        exact hnd.1
      simp [this, lookup_dictSet, Option.orElse]
    · rw [lookup_dictSet]
      simp [h]

theorem keys_dbSet (db : DB) (cid d v : Nat) :
    (dbSet db cid d v).map Prod.fst = db.map Prod.fst := by
  rw [dbSet, List.map_map]
  apply List.map_congr_left
  intro r _
  by_cases h : r.1 = (cid, d)
  · simp [h]
  · simp [h]

theorem dbSet_cons_eq (rs : List ((Nat × Nat) × Nat)) (cid d v w : Nat) :
    dbSet (((cid, d), w) :: rs) cid d v = ((cid, d), v) :: dbSet rs cid d v := by
  simp [dbSet]

theorem dbSet_cons_ne (k : Nat × Nat) (rs : List ((Nat × Nat) × Nat)) (cid d v w : Nat)
    (hk : ¬ k = (cid, d)) :
    dbSet ((k, w) :: rs) cid d v = (k, w) :: dbSet rs cid d v := by
  simp [dbSet, hk]

theorem lookup_dbSet (cid d v : Nat) (j : Nat × Nat) :
    ∀ db : DB,
      List.lookup j (dbSet db cid d v) =
        if j = (cid, d) then (List.lookup (cid, d) db).map (fun _ => v)
        else List.lookup j db := by
  intro db
  induction db with
  | nil => simp [dbSet]
  | cons r rs ih =>
    rcases r with ⟨k, w⟩
    by_cases hk : k = (cid, d)
    · subst hk
      rw [dbSet_cons_eq, lookup_cons_ite]
      by_cases hj : j = (cid, d)
      · simp [hj, lookup_cons_ite]
      · simp [hj, lookup_cons_ite, ih]
    · rw [dbSet_cons_ne _ _ _ _ _ _ hk, lookup_cons_ite]
      by_cases hj : j = k
      · subst hj
        simp [hk, lookup_cons_ite, ih]
      · rw [if_neg hj, ih]
        by_cases hjd : j = (cid, d)
        · have hkd : ¬ ((cid, d) = k) := fun h => hk h.symm
          simp [hjd, lookup_cons_ite, hkd]
        · simp [hjd, lookup_cons_ite, hj]

theorem lookup_dbInsert (db : DB) (cid d v : Nat) (j : Nat × Nat) :
    List.lookup j (dbInsert db cid d v) =
      ((List.lookup j db).orElse fun _ =>
        if j = (cid, d) then some v else none) := by
  rw [dbInsert, lookup_append_or]
  by_cases hj : j = (cid, d)
  · simp [hj, lookup_cons_ite]
  · simp [hj, lookup_cons_ite]

theorem lookup_dbFetch (cid : Nat) (batch : List Nat) (d : Nat) :
    ∀ db : DB,
      List.lookup d (dbFetch db cid batch) =
        if d ∈ batch then List.lookup (cid, d) db else none := by
  intro db
  induction db with
  | nil => simp [dbFetch]
  | cons r rs ih =>
    rcases r with ⟨⟨c2, d2⟩, v2⟩
    by_cases hc : c2 = cid ∧ d2 ∈ batch
    · rw [show dbFetch (((c2, d2), v2) :: rs) cid batch
            = (d2, v2) :: dbFetch rs cid batch from by
          simp [dbFetch, List.filterMap_cons, hc.1, hc.2]]
      rw [lookup_cons_ite, lookup_cons_ite, ih]
      by_cases hj : d = d2
      · subst hj
        simp [hc.1, hc.2]
      · have : ¬ (d, cid) = (d2, cid) := by simp [hj]
        by_cases hb : d ∈ batch
        · simp [hj, hb, hc.1, show ¬ ((cid, d) = (c2, d2)) from by simp [hj]]
        · simp [hj, hb]
    · rw [show dbFetch (((c2, d2), v2) :: rs) cid batch = dbFetch rs cid batch from by
          simp only [dbFetch, List.filterMap_cons]
          rw [if_neg hc]]
      rw [ih, lookup_cons_ite]
      by_cases hb : d ∈ batch
      · have hne : ¬ ((cid, d) = (c2, d2)) := by
          intro he
          rw [Prod.mk.injEq] at he
          exact hc ⟨he.1.symm, he.2 ▸ hb⟩
        simp [hb, hne]
      · simp [hb]

theorem keysNodup_dbFetch (cid : Nat) (batch : List Nat) :
    ∀ db : DB, (db.map Prod.fst).Nodup →
      ((dbFetch db cid batch).map Prod.fst).Nodup := by
  intro db
  induction db with
  | nil => intro _; simp [dbFetch]
  | cons r rs ih =>
    intro hnd
    rcases r with ⟨⟨c2, d2⟩, v2⟩
    rw [List.map_cons, List.nodup_cons] at hnd
    by_cases hc : c2 = cid ∧ d2 ∈ batch
    · rw [show dbFetch (((c2, d2), v2) :: rs) cid batch
            = (d2, v2) :: dbFetch rs cid batch from by
          simp [dbFetch, List.filterMap_cons, hc.1, hc.2]]
      rw [List.map_cons, List.nodup_cons]
      refine ⟨?_, ih hnd.2⟩
      intro hmem
      rcases List.mem_map.mp hmem with ⟨⟨dd, vv⟩, hdd, hde⟩
      rcases List.mem_filterMap.mp hdd with ⟨⟨⟨cc, dcc⟩, vcc⟩, hrow, hval⟩
      by_cases hcc : cc = cid ∧ dcc ∈ batch
      · rw [if_pos hcc] at hval
        cases hval
        apply hnd.1
        apply List.mem_map.mpr
        refine ⟨((cc, dcc), vcc), hrow, ?_⟩
        simp only at hde
        simp [hcc.1, hc.1, hde]
      · rw [if_neg hcc] at hval
        cases hval
    · rw [show dbFetch (((c2, d2), v2) :: rs) cid batch = dbFetch rs cid batch from by
          simp only [dbFetch, List.filterMap_cons]
          rw [if_neg hc]]
      exact ih hnd.2

theorem chunks100Aux_flatten :
    ∀ (fuel : Nat) (l : List Nat), l.length ≤ fuel →
      (chunks100Aux fuel l).flatten = l := by
  intro fuel
  induction fuel with
  | zero =>
    intro l hl
    rw [Nat.le_zero] at hl
    rw [List.length_eq_zero] at hl
    subst hl
    rfl
  | succ fuel ih =>
    intro l hl
    cases l with
    | nil => rfl
    | cons x xs =>
      rw [chunks100Aux, List.flatten_cons, ih]
      · exact List.take_append_drop _ _
      · rw [List.length_drop]
        simp only [List.length_cons] at hl ⊢
        omega

theorem chunks100_flatten (l : List Nat) : (chunks100 l).flatten = l :=
  chunks100Aux_flatten l.length l (Nat.le_refl _)

theorem lookup_fetchBatch_fold (cid : Nat) (db : DB) (hdb : (db.map Prod.fst).Nodup) :
    ∀ (bs : List (List Nat)) (acc : List (Nat × Nat)) (d : Nat),
      List.lookup d (bs.foldl (fetchBatchStep cid db (fun _ => false)) acc) =
        if d ∈ bs.flatten ∧ (List.lookup (cid, d) db).isSome then List.lookup (cid, d) db
        else List.lookup d acc := by
  intro bs
  induction bs with
  | nil =>
    intro acc d
    simp
  | cons b bs ih =>
    intro acc d
    rw [List.foldl_cons, ih]
    have hstep : ∀ j, List.lookup j (fetchBatchStep cid db (fun _ => false) acc b) =
        ((List.lookup j (dbFetch db cid b)).orElse fun _ => List.lookup j acc) := by
      intro j
      rw [fetchBatchStep, if_neg (by simp)]
      exact lookup_dictInsertRows j _ acc (keysNodup_dbFetch cid b db hdb)
    by_cases hflat : d ∈ bs.flatten ∧ (List.lookup (cid, d) db).isSome
    · rw [if_pos hflat, if_pos ⟨by simp [List.mem_flatten] at hflat ⊢; tauto, hflat.2⟩]
    · rw [if_neg hflat, hstep, lookup_dbFetch]
      by_cases hb : d ∈ b
      · rw [if_pos hb]
        by_cases hpres : (List.lookup (cid, d) db).isSome
        · rw [if_pos ⟨by simp [List.mem_flatten]; exact Or.inl hb, hpres⟩]
          rcases Option.isSome_iff_exists.mp hpres with ⟨v, hv⟩
          simp [hv, Option.orElse]
        · rw [if_neg (by intro hcon; exact hpres hcon.2)]
          have : List.lookup (cid, d) db = none := by
            cases hcase : List.lookup (cid, d) db
            · rfl
            · rw [hcase] at hpres; simp at hpres
          simp [this, Option.orElse]
      · rw [if_neg hb]
        have hnotflat : ¬ (d ∈ (b :: bs).flatten ∧ (List.lookup (cid, d) db).isSome) := by
          intro hcon
          rcases hcon with ⟨hmem, hpres⟩
          rw [List.flatten_cons, List.mem_append] at hmem
          rcases hmem with h | h
          · exact hb h
          · exact hflat ⟨h, hpres⟩
        rw [if_neg hnotflat]
        simp [Option.orElse]

/-- With no batch failures, the pre-fetched dict answers exactly as the
table does on every date of the computed map. -/
theorem lookup_fetch_existing (cid : Nat) (states : List (Nat × Nat)) (db : DB)
    (hdb : (db.map Prod.fst).Nodup) (d : Nat) (hd : d ∈ states.map Prod.fst) :
    List.lookup d (fetch_existing cid states db (fun _ => false)) =
      List.lookup (cid, d) db := by
  rw [fetch_existing, lookup_fetchBatch_fold cid db hdb]
  rw [chunks100_flatten]
  by_cases hpres : (List.lookup (cid, d) db).isSome
  · rw [if_pos ⟨hd, hpres⟩]
  · rw [if_neg (by intro hcon; exact hpres hcon.2)]
    cases hcase : List.lookup (cid, d) db
    · simp
    · rw [hcase] at hpres; simp at hpres

/-- Whatever batches fail, every entry of the pre-fetched dict reflects a
real row of the table. -/
theorem lookup_fetch_existing_sound (cid : Nat) (states : List (Nat × Nat)) (db : DB)
    (hdb : (db.map Prod.fst).Nodup) (ff : List Nat → Bool) (d v : Nat)
    (h : List.lookup d (fetch_existing cid states db ff) = some v) :
    List.lookup (cid, d) db = some v := by
  rw [fetch_existing] at h
  suffices haux : ∀ (bs : List (List Nat)) (acc : List (Nat × Nat)),
      (∀ d2 v2, List.lookup d2 acc = some v2 → List.lookup (cid, d2) db = some v2) →
      ∀ d2 v2, List.lookup d2 (bs.foldl (fetchBatchStep cid db ff) acc) = some v2 →
        List.lookup (cid, d2) db = some v2 by
    exact haux _ [] (by intro d2 v2 hcon; simp at hcon) d v h
  intro bs
  induction bs with
  | nil => intro acc hsound d2 v2 hl; exact hsound d2 v2 hl
  | cons b bs ih =>
    intro acc hsound d2 v2 hl
    rw [List.foldl_cons] at hl
    refine ih _ ?_ d2 v2 hl
    intro d3 v3 hl3
    rw [fetchBatchStep] at hl3
    by_cases hff : ff b
    · rw [if_pos hff] at hl3
      exact hsound d3 v3 hl3
    · rw [if_neg hff] at hl3
      rw [lookup_dictInsertRows _ _ _ (keysNodup_dbFetch cid b db hdb)] at hl3
      rw [lookup_dbFetch] at hl3
      by_cases hmem : d3 ∈ b
      · rw [if_pos hmem] at hl3
        cases hcase : List.lookup (cid, d3) db with
        | none =>
          rw [hcase] at hl3
          simp [Option.orElse] at hl3
          have hs := hsound d3 v3 hl3
          rw [hcase] at hs
          exact hs
        | some w =>
          rw [hcase] at hl3
          simp [Option.orElse] at hl3
          rw [hl3]
      · rw [if_neg hmem] at hl3
        simp [Option.orElse] at hl3
        exact hsound d3 v3 hl3

/-! ## Behaviour of the reconciler's write loop -/

/-- The dates the write loop inserts: not pre-fetched and genuinely
absent from the table. -/
def insPredB (cid : Nat) (existing : List (Nat × Nat)) (db : DB) (ds : Nat × Nat) : Bool :=
  (List.lookup ds.1 existing).isNone && (List.lookup (cid, ds.1) db).isNone

/-- The dates the write loop updates: pre-fetched with a different state,
or not pre-fetched but present in the table (the duplicate-key conflict
retried as an update). -/
def updPredB (cid : Nat) (existing : List (Nat × Nat)) (db : DB) (ds : Nat × Nat) : Bool :=
  match List.lookup ds.1 existing with
  | some old => decide (¬ old = ds.2)
  | none => (List.lookup (cid, ds.1) db).isSome

theorem applyState_some (cid : Nat) (existing : List (Nat × Nat)) (acc : UpdResult)
    (ds : Nat × Nat) (old : Nat) (h : List.lookup ds.1 existing = some old) :
    applyState cid existing acc ds =
      if old ≠ ds.2 then
        { acc with updated := acc.updated + 1, db := dbSet acc.db cid ds.1 ds.2 }
      else acc := by
  rw [applyState, h]

theorem applyState_none (cid : Nat) (existing : List (Nat × Nat)) (acc : UpdResult)
    (ds : Nat × Nat) (h : List.lookup ds.1 existing = none) :
    applyState cid existing acc ds =
      if (List.lookup (cid, ds.1) acc.db).isSome then
        { acc with updated := acc.updated + 1, db := dbSet acc.db cid ds.1 ds.2 }
      else
        { acc with inserted := acc.inserted + 1, db := dbInsert acc.db cid ds.1 ds.2 } := by
  rw [applyState, h]

theorem applyState_db_frame (cid : Nat) (existing : List (Nat × Nat)) (acc : UpdResult)
    (ds : Nat × Nat) (j : Nat) (hj : ¬ j = ds.1) :
    List.lookup (cid, j) (applyState cid existing acc ds).db =
      List.lookup (cid, j) acc.db := by
  have hne : ¬ ((cid, j) = (cid, ds.1)) := by simp [hj]
  cases hcase : List.lookup ds.1 existing with
  | some old =>
    rw [applyState_some cid existing acc ds old hcase]
    by_cases h : old ≠ ds.2
    · rw [if_pos h]
      show List.lookup (cid, j) (dbSet acc.db cid ds.1 ds.2) = List.lookup (cid, j) acc.db
      rw [lookup_dbSet, if_neg hne]
    · rw [if_neg h]
  | none =>
    rw [applyState_none cid existing acc ds hcase]
    by_cases h : (List.lookup (cid, ds.1) acc.db).isSome
    · rw [if_pos h]
      show List.lookup (cid, j) (dbSet acc.db cid ds.1 ds.2) = List.lookup (cid, j) acc.db
      rw [lookup_dbSet, if_neg hne]
    · rw [if_neg h]
      show List.lookup (cid, j) (dbInsert acc.db cid ds.1 ds.2) = List.lookup (cid, j) acc.db
      rw [lookup_dbInsert, if_neg hne]
      cases List.lookup (cid, j) acc.db <;> simp [Option.orElse]

theorem applyState_inserted (cid : Nat) (existing : List (Nat × Nat)) (acc : UpdResult)
    (ds : Nat × Nat) :
    (applyState cid existing acc ds).inserted =
      acc.inserted + (if insPredB cid existing acc.db ds then 1 else 0) := by
  cases hcase : List.lookup ds.1 existing with
  | some old =>
    rw [applyState_some cid existing acc ds old hcase]
    have hp : insPredB cid existing acc.db ds = false := by
      simp [insPredB, hcase]
    rw [hp]
    by_cases h : old ≠ ds.2
    · rw [if_pos h]
      simp
    · rw [if_neg h]
      simp
  | none =>
    rw [applyState_none cid existing acc ds hcase]
    by_cases h : (List.lookup (cid, ds.1) acc.db).isSome
    · have hp : insPredB cid existing acc.db ds = false := by
        cases hl : List.lookup (cid, ds.1) acc.db
        · rw [hl] at h; simp at h
        · simp [insPredB, hcase, hl]
      rw [if_pos h, hp]
      simp
    · have hp : insPredB cid existing acc.db ds = true := by
        simp only [insPredB, hcase, Option.isNone_none, Bool.true_and]
        cases hl : List.lookup (cid, ds.1) acc.db
        · rfl
        · rw [hl] at h; simp at h
      rw [if_neg h, hp]
      simp

theorem applyState_updated (cid : Nat) (existing : List (Nat × Nat)) (acc : UpdResult)
    (ds : Nat × Nat) :
    (applyState cid existing acc ds).updated =
      acc.updated + (if updPredB cid existing acc.db ds then 1 else 0) := by
  cases hcase : List.lookup ds.1 existing with
  | some old =>
    rw [applyState_some cid existing acc ds old hcase]
    have hp : updPredB cid existing acc.db ds = decide (¬ old = ds.2) := by
      simp [updPredB, hcase]
    rw [hp]
    by_cases h : old ≠ ds.2
    · rw [if_pos h]
      simp [h]
    · rw [if_neg h]
      simp [h]
  | none =>
    rw [applyState_none cid existing acc ds hcase]
    have hp : updPredB cid existing acc.db ds = (List.lookup (cid, ds.1) acc.db).isSome := by
      simp [updPredB, hcase]
    rw [hp]
    by_cases h : (List.lookup (cid, ds.1) acc.db).isSome
    · rw [if_pos h, if_pos h]
    · rw [if_neg h, if_neg h]
      simp

theorem applyState_nodup (cid : Nat) (existing : List (Nat × Nat)) (acc : UpdResult)
    (ds : Nat × Nat) (hnd : (acc.db.map Prod.fst).Nodup) :
    ((applyState cid existing acc ds).db.map Prod.fst).Nodup := by
  cases hcase : List.lookup ds.1 existing with
  | some old =>
    rw [applyState_some cid existing acc ds old hcase]
    by_cases h : old ≠ ds.2
    · rw [if_pos h]
      show ((dbSet acc.db cid ds.1 ds.2).map Prod.fst).Nodup
      rw [keys_dbSet]
      exact hnd
    · rw [if_neg h]
      exact hnd
  | none =>
    rw [applyState_none cid existing acc ds hcase]
    by_cases h : (List.lookup (cid, ds.1) acc.db).isSome
    · rw [if_pos h]
      show ((dbSet acc.db cid ds.1 ds.2).map Prod.fst).Nodup
      rw [keys_dbSet]
      exact hnd
    · rw [if_neg h]
      show ((dbInsert acc.db cid ds.1 ds.2).map Prod.fst).Nodup
      rw [dbInsert, List.map_append]
      rw [List.nodup_append]
      refine ⟨hnd, List.nodup_singleton _, ?_⟩
      intro a ha hb
      simp only [List.map_cons, List.map_nil, List.mem_singleton] at hb
      subst hb
      have : List.lookup (cid, ds.1) acc.db = none := by
        cases hl : List.lookup (cid, ds.1) acc.db
        · rfl
        · rw [hl] at h; simp at h
      rw [lookup_none_not_memkey] at this
      exact this ha

theorem foldl_applyState_framedb (cid : Nat) (existing : List (Nat × Nat)) :
    ∀ (states : List (Nat × Nat)) (acc : UpdResult) (j : Nat),
      j ∉ states.map Prod.fst →
      List.lookup (cid, j) ((states.foldl (applyState cid existing) acc).db) =
        List.lookup (cid, j) acc.db := by
  intro states
  induction states with
  | nil => intro acc j _; rfl
  | cons ds rest ih =>
    intro acc j hj
    rw [List.map_cons, List.mem_cons] at hj
    push_neg at hj
    rw [List.foldl_cons, ih _ _ hj.2, applyState_db_frame cid existing acc ds j hj.1]

theorem foldl_applyState_nodup (cid : Nat) (existing : List (Nat × Nat)) :
    ∀ (states : List (Nat × Nat)) (acc : UpdResult),
      (acc.db.map Prod.fst).Nodup →
      (((states.foldl (applyState cid existing) acc).db).map Prod.fst).Nodup := by
  intro states
  induction states with
  | nil => intro acc h; exact h
  | cons ds rest ih =>
    intro acc h
    rw [List.foldl_cons]
    exact ih _ (applyState_nodup cid existing acc ds h)

theorem foldl_applyState_inserted (cid : Nat) (existing : List (Nat × Nat)) :
    ∀ (states : List (Nat × Nat)) (acc : UpdResult),
      (states.map Prod.fst).Nodup →
      (states.foldl (applyState cid existing) acc).inserted =
        acc.inserted + states.countP (insPredB cid existing acc.db) := by
  intro states
  induction states with
  | nil => intro acc _; simp
  | cons ds rest ih =>
    intro acc hnd
    rw [List.map_cons, List.nodup_cons] at hnd
    rw [List.foldl_cons, ih _ hnd.2, applyState_inserted]
    have htrans : rest.countP (insPredB cid existing (applyState cid existing acc ds).db) =
        rest.countP (insPredB cid existing acc.db) := by
      apply List.countP_congr
      intro ds2 hds2
      have hne : ¬ ds2.1 = ds.1 := by
        intro he
        exact hnd.1 (he ▸ List.mem_map_of_mem Prod.fst hds2)
      rw [insPredB, insPredB, applyState_db_frame cid existing acc ds ds2.1 hne]
    rw [htrans, List.countP_cons]
    by_cases hp : insPredB cid existing acc.db ds
    · simp [hp]
      omega
    · simp [hp]

theorem foldl_applyState_updated (cid : Nat) (existing : List (Nat × Nat)) :
    ∀ (states : List (Nat × Nat)) (acc : UpdResult),
      (states.map Prod.fst).Nodup →
      (states.foldl (applyState cid existing) acc).updated =
        acc.updated + states.countP (updPredB cid existing acc.db) := by
  intro states
  induction states with
  | nil => intro acc _; simp
  | cons ds rest ih =>
    intro acc hnd
    rw [List.map_cons, List.nodup_cons] at hnd
    rw [List.foldl_cons, ih _ hnd.2, applyState_updated]
    have htrans : rest.countP (updPredB cid existing (applyState cid existing acc ds).db) =
        rest.countP (updPredB cid existing acc.db) := by
      apply List.countP_congr
      intro ds2 hds2
      have hne : ¬ ds2.1 = ds.1 := by
        intro he
        exact hnd.1 (he ▸ List.mem_map_of_mem Prod.fst hds2)
      rw [updPredB, updPredB, applyState_db_frame cid existing acc ds ds2.1 hne]
    rw [htrans, List.countP_cons]
    by_cases hp : updPredB cid existing acc.db ds
    · simp [hp]
      omega
    · simp [hp]

theorem foldl_applyState_applied (cid : Nat) (existing : List (Nat × Nat)) :
    ∀ (states : List (Nat × Nat)) (acc : UpdResult),
      (states.map Prod.fst).Nodup →
      (∀ d v, d ∈ states.map Prod.fst → List.lookup d existing = some v →
        List.lookup (cid, d) acc.db = some v) →
      ∀ ds ∈ states,
        List.lookup (cid, ds.1) ((states.foldl (applyState cid existing) acc).db) =
          some ds.2 := by
  intro states
  induction states with
  | nil => intro acc _ _ ds hds; exact absurd hds (List.not_mem_nil ds)
  | cons ds0 rest ih =>
    intro acc hnd hex ds hds
    rw [List.map_cons, List.nodup_cons] at hnd
    rw [List.foldl_cons]
    rcases List.mem_cons.mp hds with he | hrest
    · subst he
      rw [foldl_applyState_framedb cid existing rest _ ds.1 hnd.1]
      cases hcase : List.lookup ds.1 existing with
      | some old =>
        have hacc : List.lookup (cid, ds.1) acc.db = some old :=
          hex ds.1 old (by simp) hcase
        rw [applyState_some cid existing acc ds old hcase]
        by_cases h : old ≠ ds.2
        · rw [if_pos h]
          show List.lookup (cid, ds.1) (dbSet acc.db cid ds.1 ds.2) = some ds.2
          rw [lookup_dbSet, if_pos rfl, hacc]
          rfl
        · rw [if_neg h]
          push_neg at h
          rw [hacc, h]
      | none =>
        rw [applyState_none cid existing acc ds hcase]
        by_cases h : (List.lookup (cid, ds.1) acc.db).isSome
        · rw [if_pos h]
          show List.lookup (cid, ds.1) (dbSet acc.db cid ds.1 ds.2) = some ds.2
          rw [lookup_dbSet, if_pos rfl]
          rcases Option.isSome_iff_exists.mp h with ⟨w, hw⟩
          rw [hw]
          rfl
        · rw [if_neg h]
          show List.lookup (cid, ds.1) (dbInsert acc.db cid ds.1 ds.2) = some ds.2
          rw [lookup_dbInsert, if_pos rfl]
          have : List.lookup (cid, ds.1) acc.db = none := by
            cases hl : List.lookup (cid, ds.1) acc.db
            · rfl
            · rw [hl] at h; simp at h
          rw [this]
          rfl
    · refine ih _ hnd.2 ?_ ds hrest
      intro d v hd hv
      have hne : ¬ d = ds0.1 := by
        intro he
        exact hnd.1 (he ▸ hd)
      rw [applyState_db_frame cid existing acc ds0 d hne]
      exact hex d v (by rw [List.map_cons]; exact List.mem_cons_of_mem _ hd) hv

theorem foldl_applyState_noop (cid : Nat) (existing : List (Nat × Nat)) :
    ∀ (states : List (Nat × Nat)) (acc : UpdResult),
      (∀ ds ∈ states, List.lookup ds.1 existing = some ds.2) →
      states.foldl (applyState cid existing) acc = acc := by
  intro states
  induction states with
  | nil => intro acc _; rfl
  | cons ds rest ih =>
    intro acc hmatch
    rw [List.foldl_cons]
    have hstep : applyState cid existing acc ds = acc := by
      rw [applyState_some cid existing acc ds ds.2 (hmatch ds (by simp))]
      rw [if_neg (by simp)]
    rw [hstep]
    exact ih _ (fun ds2 hds2 => hmatch ds2 (List.mem_cons_of_mem _ hds2))

/-! ## C3: the reconciler is idempotent -/

/-- C3: for every calendar, every computed map (with its dict's distinct
keys) and every table satisfying the one-row-per-(calendar, date)
invariant, if a reconcile run completes with no environmental failures,
then immediately reconciling the same map again performs zero inserts and
zero updates and leaves the table untouched. -/
theorem c3_reconcile_idempotent :
    ∀ (cid : Nat) (states : List (Nat × Nat)) (db : DB),
      states ≠ [] →
      (states.map Prod.fst).Nodup →
      (db.map Prod.fst).Nodup →
      update_database cid states ((update_database cid states db (fun _ => false)).db)
          (fun _ => false) =
        ⟨0, 0, (update_database cid states db (fun _ => false)).db⟩ := by
  intro cid states db hne hs hdb
  have hex1 : ∀ d v, d ∈ states.map Prod.fst →
      List.lookup d (fetch_existing cid states db (fun _ => false)) = some v →
      List.lookup (cid, d) (⟨0, 0, db⟩ : UpdResult).db = some v := by
    intro d v hd hv
    rw [lookup_fetch_existing cid states db hdb d hd] at hv
    exact hv
  have happlied : ∀ ds ∈ states,
      List.lookup (cid, ds.1) ((update_database cid states db (fun _ => false)).db) =
        some ds.2 :=
    foldl_applyState_applied cid _ states ⟨0, 0, db⟩ hs hex1
  have hnodup1 : (((update_database cid states db (fun _ => false)).db).map Prod.fst).Nodup :=
    foldl_applyState_nodup cid _ states ⟨0, 0, db⟩ hdb
  have hex2 : ∀ ds ∈ states,
      List.lookup ds.1 (fetch_existing cid states
        ((update_database cid states db (fun _ => false)).db) (fun _ => false)) = some ds.2 := by
    intro ds hds
    rw [lookup_fetch_existing cid states _ hnodup1 ds.1 (List.mem_map_of_mem Prod.fst hds)]
    exact happlied ds hds
  exact foldl_applyState_noop cid _ states ⟨0, 0, _⟩ hex2

/-- Witness for C3: a two-date computed map over a table holding one
matching and one stale row. -/
theorem c3_witness :
    update_database 1 [(dOrd 2026 6 10, cal_in), (dOrd 2026 6 11, cal_booked)]
        ((update_database 1 [(dOrd 2026 6 10, cal_in), (dOrd 2026 6 11, cal_booked)]
          [((1, dOrd 2026 6 11), cal_available)] (fun _ => false)).db)
        (fun _ => false) =
      ⟨0, 0, (update_database 1 [(dOrd 2026 6 10, cal_in), (dOrd 2026 6 11, cal_booked)]
        [((1, dOrd 2026 6 11), cal_available)] (fun _ => false)).db⟩ :=
  c3_reconcile_idempotent 1 _ _ (by decide) (by decide) (by decide)

/-! ## C7: duplicate-key conflicts are retried as updates -/

/-- C7: for every run of the reconciler (any pattern of pre-fetch batch
failures), a date whose insert hits an existing row (the duplicate-key
conflict: no pre-fetched row but a row in the table) is retried as an
update and counted under `updated`; `inserted` counts exactly the dates
truly absent from the table.  No conflict aborts the run: under the table
invariant every date of the computed map ends up stored with its computed
state. -/
theorem c7_conflict_recovery :
    ∀ (cid : Nat) (states : List (Nat × Nat)) (db : DB) (ff : List Nat → Bool),
      (states.map Prod.fst).Nodup →
      (update_database cid states db ff).inserted =
        states.countP (insPredB cid (fetch_existing cid states db ff) db) ∧
      (update_database cid states db ff).updated =
        states.countP (updPredB cid (fetch_existing cid states db ff) db) ∧
      ((db.map Prod.fst).Nodup →
        ∀ ds ∈ states,
          List.lookup (cid, ds.1) ((update_database cid states db ff).db) = some ds.2) := by
  intro cid states db ff hs
  refine ⟨?_, ?_, ?_⟩
  · have h := foldl_applyState_inserted cid (fetch_existing cid states db ff) states
      ⟨0, 0, db⟩ hs
    simpa using h
  · have h := foldl_applyState_updated cid (fetch_existing cid states db ff) states
      ⟨0, 0, db⟩ hs
    simpa using h
  · intro hdb
    apply foldl_applyState_applied cid _ states ⟨0, 0, db⟩ hs
    intro d v _ hv
    exact lookup_fetch_existing_sound cid states db hdb ff d v hv

/-- Witness for C7: every pre-fetch batch fails, the table already holds a
row for the first date — its insert conflicts and is retried as an update
(counted under `updated`), the second date is inserted, and both rows end
up stored. -/
theorem c7_witness :
    (update_database 1 [(dOrd 2026 6 10, cal_in), (dOrd 2026 6 11, cal_out)]
        [((1, dOrd 2026 6 10), cal_booked)] (fun _ => true)).inserted =
      List.countP
        (insPredB 1 (fetch_existing 1 [(dOrd 2026 6 10, cal_in), (dOrd 2026 6 11, cal_out)]
          [((1, dOrd 2026 6 10), cal_booked)] (fun _ => true))
          [((1, dOrd 2026 6 10), cal_booked)])
        [(dOrd 2026 6 10, cal_in), (dOrd 2026 6 11, cal_out)] ∧
    (update_database 1 [(dOrd 2026 6 10, cal_in), (dOrd 2026 6 11, cal_out)]
        [((1, dOrd 2026 6 10), cal_booked)] (fun _ => true)).updated =
      List.countP
        (updPredB 1 (fetch_existing 1 [(dOrd 2026 6 10, cal_in), (dOrd 2026 6 11, cal_out)]
          [((1, dOrd 2026 6 10), cal_booked)] (fun _ => true))
          [((1, dOrd 2026 6 10), cal_booked)])
        [(dOrd 2026 6 10, cal_in), (dOrd 2026 6 11, cal_out)] ∧
    ((([((1, dOrd 2026 6 10), cal_booked)] : DB).map Prod.fst).Nodup →
      ∀ ds ∈ [(dOrd 2026 6 10, cal_in), (dOrd 2026 6 11, cal_out)],
        List.lookup (1, ds.1)
          ((update_database 1 [(dOrd 2026 6 10, cal_in), (dOrd 2026 6 11, cal_out)]
            [((1, dOrd 2026 6 10), cal_booked)] (fun _ => true)).db) = some ds.2) := by
  have h := c7_conflict_recovery 1 [(dOrd 2026 6 10, cal_in), (dOrd 2026 6 11, cal_out)]
    [((1, dOrd 2026 6 10), cal_booked)] (fun _ => true) (by decide)
  exact ⟨h.1, h.2.1, fun hdb => h.2.2 hdb⟩

/-! ## Order-theoretic facts about the raw-string comparison and the sort -/

theorem charsLt_asymm : ∀ x y : List Char, charsLt x y = true → charsLt y x = false := by
  intro x
  induction x with
  | nil =>
    intro y h
    cases y with
    | nil => simp [charsLt] at h
    | cons b bs => simp [charsLt]
  | cons a as ih =>
    intro y h
    cases y with
    | nil => simp [charsLt] at h
    | cons b bs =>
      rw [charsLt] at h ⊢
      by_cases hab : a < b
      · rw [if_neg (not_lt.mpr (le_of_lt hab)), if_pos hab]
      · rw [if_neg hab] at h
        by_cases hba : b < a
        · rw [if_pos hba] at h
          simp at h
        · rw [if_neg hba] at h
          rw [if_neg hba, if_neg hab]
          exact ih bs h

theorem charsLt_trans : ∀ x y z : List Char,
    charsLt x y = true → charsLt y z = true → charsLt x z = true := by
  intro x
  induction x with
  | nil =>
    intro y z hxy hyz
    cases z with
    | nil =>
      cases y with
      | nil => simp [charsLt] at hxy
      | cons b bs => simp [charsLt] at hyz
    | cons c cs => simp [charsLt]
  | cons a as ih =>
    intro y z hxy hyz
    cases y with
    | nil => simp [charsLt] at hxy
    | cons b bs =>
      cases z with
      | nil => simp [charsLt] at hyz
      | cons c cs =>
        rw [charsLt] at hxy hyz ⊢
        by_cases hab : a < b
        · by_cases hbc : b < c
          · rw [if_pos (lt_trans hab hbc)]
          · rw [if_neg hbc] at hyz
            by_cases hcb : c < b
            · rw [if_pos hcb] at hyz
              simp at hyz
            · rw [if_neg hcb] at hyz
              have hbc2 : b = c := le_antisymm (not_lt.mp hcb) (not_lt.mp hbc)
              rw [if_pos (hbc2 ▸ hab)]
        · rw [if_neg hab] at hxy
          by_cases hba : b < a
          · rw [if_pos hba] at hxy
            simp at hxy
          · rw [if_neg hba] at hxy
            have hab2 : a = b := le_antisymm (not_lt.mp hba) (not_lt.mp hab)
            subst hab2
            by_cases hac : a < c
            · rw [if_pos hac]
            · rw [if_neg hac] at hyz ⊢
              by_cases hca : c < a
              · rw [if_pos hca] at hyz
                simp at hyz
              · rw [if_neg hca] at hyz ⊢
                exact ih bs cs hxy hyz

theorem charsLt_connex : ∀ x y : List Char, ¬ x = y →
    charsLt x y = true ∨ charsLt y x = true := by
  intro x
  induction x with
  | nil =>
    intro y h
    cases y with
    | nil => exact absurd rfl h
    | cons b bs => left; simp [charsLt]
  | cons a as ih =>
    intro y h
    cases y with
    | nil => right; simp [charsLt]
    | cons b bs =>
      rcases lt_trichotomy a b with hab | hab | hab
      · left
        rw [charsLt, if_pos hab]
      · subst hab
        have hne : ¬ as = bs := by
          intro he
          exact h (by rw [he])
        rcases ih bs hne with hc | hc
        · left
          rw [charsLt, if_neg (lt_irrefl a), if_neg (lt_irrefl a)]
          exact hc
        · right
          rw [charsLt, if_neg (lt_irrefl a), if_neg (lt_irrefl a)]
          exact hc
      · right
        rw [charsLt, if_pos hab]

theorem leRaw_total : ∀ x y : Period, leRaw x y = true ∨ leRaw y x = true := by
  intro x y
  rw [leRaw, leRaw]
  by_cases h : charsLt (rawKey y).data (rawKey x).data = true
  · right
    rw [charsLt_asymm _ _ h]
    rfl
  · left
    rw [Bool.not_eq_true] at h
    rw [h]
    rfl

theorem leRaw_trans : ∀ x y z : Period,
    leRaw x y = true → leRaw y z = true → leRaw x z = true := by
  intro x y z hxy hyz
  rw [leRaw, Bool.not_eq_true'] at hxy hyz ⊢
  by_cases hzx : charsLt (rawKey z).data (rawKey x).data = true
  · by_cases hxy2 : (rawKey x).data = (rawKey y).data
    · rw [hxy2] at hzx
      rw [hzx] at hyz
      simp at hyz
    · rcases charsLt_connex _ _ hxy2 with hc | hc
      · have := charsLt_trans _ _ _ hzx hc
        rw [this] at hyz
        simp at hyz
      · rw [hc] at hxy
        simp at hxy
  · rw [Bool.not_eq_true] at hzx
    exact hzx

theorem insertP_split (le : α → α → Bool) (x : α) :
    ∀ l : List α, ∃ A B, insertP le x l = A ++ x :: B ∧ l = A ++ B := by
  intro l
  induction l with
  | nil => exact ⟨[], [], rfl, rfl⟩
  | cons y ys ih =>
    by_cases h : le x y
    · exact ⟨[], y :: ys, by rw [insertP, if_pos h]; rfl, rfl⟩
    · rcases ih with ⟨A, B, h1, h2⟩
      refine ⟨y :: A, B, ?_, ?_⟩
      · rw [insertP, if_neg h, h1]
        rfl
      · rw [h2]
        rfl

theorem insertP_pairwise (le : α → α → Bool)
    (htot : ∀ a b, le a b = true ∨ le b a = true)
    (htrans : ∀ a b c, le a b = true → le b c = true → le a c = true) (x : α) :
    ∀ l : List α, l.Pairwise (fun a b => le a b = true) →
      (insertP le x l).Pairwise (fun a b => le a b = true) := by
  intro l
  induction l with
  | nil =>
    intro _
    exact List.pairwise_singleton _ _
  | cons y ys ih =>
    intro hp
    rw [List.pairwise_cons] at hp
    by_cases h : le x y
    · rw [insertP, if_pos h]
      rw [List.pairwise_cons]
      refine ⟨?_, List.pairwise_cons.mpr hp⟩
      intro b hb
      rcases List.mem_cons.mp hb with he | hm
      · subst he; exact h
      · exact htrans x y b h (hp.1 b hm)
    · rw [insertP, if_neg h]
      rw [List.pairwise_cons]
      have hyx : le y x = true := by
        rcases htot x y with hc | hc
        · exact absurd hc h
        · exact hc
      refine ⟨?_, ih hp.2⟩
      intro b hb
      rcases insertP_split le x ys with ⟨A, B, h1, h2⟩
      rw [h1] at hb
      rw [List.mem_append, List.mem_cons] at hb
      rcases hb with hA | hxB
      · exact hp.1 b (by rw [h2]; exact List.mem_append.mpr (Or.inl hA))
      · rcases hxB with he | hB
        · subst he; exact hyx
        · exact hp.1 b (by rw [h2]; exact List.mem_append.mpr (Or.inr hB))

theorem sortP_pairwise (le : α → α → Bool)
    (htot : ∀ a b, le a b = true ∨ le b a = true)
    (htrans : ∀ a b c, le a b = true → le b c = true → le a c = true) :
    ∀ l : List α, (sortP le l).Pairwise (fun a b => le a b = true) := by
  intro l
  induction l with
  | nil => exact List.Pairwise.nil
  | cons x xs ih => exact insertP_pairwise le htot htrans x _ ih

theorem insertP_mid (le : α → α → Bool)
    (htrans : ∀ a b c, le a b = true → le b c = true → le a c = true) (a p : α) :
    ∀ (A B : List α), (A ++ p :: B).Pairwise (fun x y => le x y = true) →
      ∃ A2 B2, insertP le a (A ++ p :: B) = A2 ++ p :: B2 ∧
        insertP le a (A ++ B) = A2 ++ B2 := by
  intro A
  induction A with
  | nil =>
    intro B hp
    rw [List.nil_append] at hp ⊢
    by_cases h : le a p
    · refine ⟨[a], B, by rw [insertP, if_pos h]; rfl, ?_⟩
      rw [List.nil_append]
      rw [List.pairwise_cons] at hp
      cases B with
      | nil => rfl
      | cons b bs =>
        have hab : le a b = true := htrans a p b h (hp.1 b (by simp))
        rw [insertP, if_pos hab]
        rfl
    · exact ⟨[], insertP le a B, by rw [insertP, if_neg h]; rfl, rfl⟩
  | cons x A ih =>
    intro B hp
    rw [List.cons_append] at hp ⊢
    rw [List.pairwise_cons] at hp
    by_cases h : le a x
    · refine ⟨a :: x :: A, B, by rw [insertP, if_pos h]; rfl, ?_⟩
      rw [List.cons_append, insertP, if_pos h]
      rfl
    · rcases ih B hp.2 with ⟨A2, B2, h1, h2⟩
      refine ⟨x :: A2, B2, ?_, ?_⟩
      · rw [insertP, if_neg h, h1]
        rfl
      · rw [List.cons_append, insertP, if_neg h, h2]
        rfl

theorem sortP_extract (le : α → α → Bool)
    (htot : ∀ a b, le a b = true ∨ le b a = true)
    (htrans : ∀ a b c, le a b = true → le b c = true → le a c = true) (p : α) :
    ∀ (l1 l2 : List α), ∃ A B,
      sortP le (l1 ++ p :: l2) = A ++ p :: B ∧ sortP le (l1 ++ l2) = A ++ B := by
  intro l1
  induction l1 with
  | nil =>
    intro l2
    rw [List.nil_append, List.nil_append, sortP]
    rcases insertP_split le p (sortP le l2) with ⟨A, B, h1, h2⟩
    exact ⟨A, B, h1, h2⟩
  | cons x l1 ih =>
    intro l2
    rcases ih l2 with ⟨A, B, h1, h2⟩
    rw [List.cons_append, sortP, h1]
    have hpw : (A ++ p :: B).Pairwise (fun a b => le a b = true) := by
      rw [← h1]
      exact sortP_pairwise le htot htrans _
    rcases insertP_mid le htrans x p A B hpw with ⟨A2, B2, h3, h4⟩
    refine ⟨A2, B2, h3, ?_⟩
    rw [List.cons_append, sortP, h2]
    exact h4

/-! ## C8 (amended): which intervals contribute nothing -/

/-- A well-formed blocked period that the walk never touches: its parsed
start date is after `year_end`, or its checkout day (`end + 1`) is
strictly before `year_start`. -/
def periodOutB (ys ye : Nat) (p : Period) : Bool :=
  match p.startdate, p.enddate with
  | some ss, some es =>
    if ss = "" ∨ es = "" then false
    else
      match parse_date ss, parse_date es with
      | some sd, some ed => decide (ye < sd.toOrd) || decide (ed.toOrd + 1 < ys)
      | _, _ => false
  | _, _ => false

theorem processPeriod_parsed (ys ye : Nat) (states : List (Nat × Nat)) (ss es : String)
    (sd ed : Date) (hemp : ¬ (ss = "" ∨ es = ""))
    (hps : parse_date ss = some sd) (hpe : parse_date es = some ed) :
    processPeriod ys ye states ⟨some ss, some es⟩ =
      if ye < sd.toOrd then states
      else
        processDays ye sd.toOrd ed.toOrd (ed.toOrd + 1)
          ((if ed.toOrd + 1 ≤ ye then ed.toOrd + 1 + 1 else ye + 1) - max sd.toOrd ys)
          (max sd.toOrd ys) states := by
  rw [processPeriod]
  simp only
  rw [if_neg hemp, hps, hpe]

/-- The blocked periods on which the embedding diverges from the source:
a parsed `enddate` of `9999-12-31` (Python's `date.max`).  On such a
period the source raises an uncaught `OverflowError` computing the
checkout day (line 206, before the start-after-`year_end` skip on line
209), instead of returning a map; see the model-boundary note on
`processPeriod`. -/
def periodOverflowB (p : Period) : Bool :=
  match p.enddate with
  | some es =>
    match parse_date es with
    | some ed => decide (ed = ⟨9999, 12, 31⟩)
    | none => false
  | none => false

theorem processPeriod_out (ys ye : Nat) (hy : ys ≤ ye) (p : Period)
    (hout : periodOutB ys ye p = true) :
    ∀ states, processPeriod ys ye states p = states := by
  intro states
  rcases p with ⟨sd?, ed?⟩
  rcases sd? with _ | ss
  · simp [periodOutB] at hout
  rcases ed? with _ | es
  · simp [periodOutB] at hout
  rw [periodOutB] at hout
  simp only at hout
  by_cases hemp : ss = "" ∨ es = ""
  · rw [if_pos hemp] at hout
    simp at hout
  · rw [if_neg hemp] at hout
    cases hps : parse_date ss with
    | none =>
      rw [hps] at hout
      cases hpe2 : parse_date es <;> rw [hpe2] at hout <;> simp at hout
    | some sd =>
      cases hpe : parse_date es with
      | none =>
        rw [hps, hpe] at hout
        simp at hout
      | some ed =>
        rw [hps, hpe] at hout
        simp only [Bool.or_eq_true, decide_eq_true_eq] at hout
        rw [processPeriod_parsed ys ye states ss es sd ed hemp hps hpe]
        rcases hout with hout | hout
        · rw [if_pos hout]
        · by_cases hs2 : ye < sd.toOrd
          · rw [if_pos hs2]
          · rw [if_neg hs2]
            have hfuel : (if ed.toOrd + 1 ≤ ye then ed.toOrd + 1 + 1 else ye + 1)
                - max sd.toOrd ys = 0 := by
              rw [if_pos (by omega)]
              have : ys ≤ max sd.toOrd ys := le_max_right _ _
              omega
            rw [hfuel]
            rfl

/-- C8 (amended): for any year range and any position in the input list,
an interval starting after `year_end`, or ending at least two days before
`year_start` (so that even its checkout day precedes the range), adds no
entries: the computed map is the one computed without that interval.  Two
exclusions, both forced by the source: an interval ending exactly the day
before `year_start` is not covered — its checkout day is `year_start`
itself and gets marked `CHECK_OUT` (see the counterexample) — and the
statement is restricted to lists with no interval whose parsed end date
is `9999-12-31`, since there the source raises an uncaught
`OverflowError` (before the start-after-`year_end` skip) instead of
producing any map, while this embedding totalizes the checkout
computation (`periodOverflowB`, and the model-boundary note on
`processPeriod`). -/
theorem c8_amended (ys ye cid : Nat) (l1 l2 : List Period) (p : Period)
    (hy : ys ≤ ye) (hout : periodOutB ys ye p = true)
    (hsafe : ∀ q ∈ l1 ++ p :: l2, periodOverflowB q = false) :
    calculate_states (l1 ++ p :: l2) cid ys ye = calculate_states (l1 ++ l2) cid ys ye := by
  rw [calculate_states, calculate_states]
  rcases sortP_extract leRaw leRaw_total leRaw_trans p l1 l2 with ⟨A, B, h1, h2⟩
  rw [h1, h2, List.foldl_append, List.foldl_append, List.foldl_cons]
  rw [processPeriod_out ys ye hy p hout]

/-- Witness for C8 (amended): a 2027 interval sandwiched between two
ordinary intervals contributes nothing, none of the end dates being the
overflowing `9999-12-31`. -/
theorem c8_amended_witness :
    ys2026 ≤ ye2026 ∧
    periodOutB ys2026 ye2026 ⟨some "03/05/2027", some "03/08/2027"⟩ = true ∧
    (∀ q ∈ [⟨some "2026-06-10", some "2026-06-12"⟩, ⟨some "03/05/2027", some "03/08/2027"⟩,
        ⟨some "2026-07-01", some "2026-07-02"⟩] , periodOverflowB q = false) ∧
    calculate_states
        [⟨some "2026-06-10", some "2026-06-12"⟩, ⟨some "03/05/2027", some "03/08/2027"⟩,
         ⟨some "2026-07-01", some "2026-07-02"⟩] 1 ys2026 ye2026 =
      calculate_states
        [⟨some "2026-06-10", some "2026-06-12"⟩, ⟨some "2026-07-01", some "2026-07-02"⟩]
        1 ys2026 ye2026 :=
  ⟨by decide, by decide, by decide,
   c8_amended ys2026 ye2026 1 [⟨some "2026-06-10", some "2026-06-12"⟩]
     [⟨some "2026-07-01", some "2026-07-02"⟩] ⟨some "03/05/2027", some "03/08/2027"⟩
     (by decide) (by decide) (by decide)⟩

/-! ## C2 (amended): canonical `YYYY-MM-DD` keys sort chronologically -/

/-- The ASCII digit character for a digit value (0-9). -/
def digitChar (n : Nat) : Char :=
  match n with
  | 0 => '0' | 1 => '1' | 2 => '2' | 3 => '3' | 4 => '4'
  | 5 => '5' | 6 => '6' | 7 => '7' | 8 => '8' | _ => '9'

/-- Zero-padded four-digit decimal rendering (the year of a
`%Y-%m-%d`-formatted date). -/
def pad4 (n : Nat) : List Char :=
  [digitChar (n / 1000 % 10), digitChar (n / 100 % 10), digitChar (n / 10 % 10),
   digitChar (n % 10)]

/-- Zero-padded two-digit decimal rendering. -/
def pad2 (n : Nat) : List Char :=
  [digitChar (n / 10 % 10), digitChar (n % 10)]

/-- The characters of `d.strftime('%Y-%m-%d')` for a valid date. -/
def fmtChars (d : Date) : List Char :=
  pad4 d.year ++ '-' :: (pad2 d.month ++ '-' :: pad2 d.day)

/-- `d.strftime('%Y-%m-%d')` as a string. -/
def formatYMD (d : Date) : String := ⟨fmtChars d⟩

theorem digitChar_isDigit : ∀ n, n < 10 → (digitChar n).isDigit = true := by decide

theorem charDigit_digitChar : ∀ n, n < 10 → charDigit (digitChar n) = n := by decide

theorem digitChar_ne_slash : ∀ n, n < 10 → ¬ digitChar n = '/' := by decide

theorem digitChar_ne_dash : ∀ n, n < 10 → ¬ digitChar n = '-' := by decide

theorem digitChar_lt_iff : ∀ a, a < 10 → ∀ b, b < 10 →
    ((digitChar a < digitChar b) ↔ a < b) := by decide

theorem matchYear_pad4 (y : Nat) (hy : y ≤ 9999) (rest : List Char) :
    matchYear (pad4 y ++ rest) = [(y, rest)] := by
  have h1 : y / 1000 % 10 < 10 := Nat.mod_lt _ (by omega)
  have h2 : y / 100 % 10 < 10 := Nat.mod_lt _ (by omega)
  have h3 : y / 10 % 10 < 10 := Nat.mod_lt _ (by omega)
  have h4 : y % 10 < 10 := Nat.mod_lt _ (by omega)
  rw [pad4]
  simp only [List.cons_append, List.nil_append]
  rw [matchYear, if_pos ⟨digitChar_isDigit _ h1, digitChar_isDigit _ h2,
    digitChar_isDigit _ h3, digitChar_isDigit _ h4⟩]
  rw [charDigit_digitChar _ h1, charDigit_digitChar _ h2, charDigit_digitChar _ h3,
    charDigit_digitChar _ h4]
  have hv : 1000 * (y / 1000 % 10) + 100 * (y / 100 % 10) + 10 * (y / 10 % 10) + y % 10 = y := by
    omega
  rw [hv]

theorem matchMonth_pad2 (m : Nat) (hm1 : 1 ≤ m) (hm2 : m ≤ 12) (rest : List Char) :
    matchMonth (pad2 m ++ rest) =
      if m ≤ 9 then [(m, rest)] else [(m, rest), (1, digitChar (m % 10) :: rest)] := by
  interval_cases m <;>
    simp [pad2, matchMonth, digitChar, charDigit, Char.toNat] <;> decide

theorem matchDay_pad2 (d : Nat) (hd1 : 1 ≤ d) (hd2 : d ≤ 31) (rest : List Char) :
    matchDay (pad2 d ++ rest) =
      if d ≤ 9 then [(d, rest)]
      else if d ≤ 29 then [(d, rest), (d / 10, digitChar (d % 10) :: rest)]
      else [(d, rest), (3, digitChar (d % 10) :: rest)] := by
  interval_cases d <;>
    simp [pad2, matchDay, digitChar, charDigit, Char.toNat] <;> decide

theorem matchMonth_rest (c1 c2 : Char) (rest : List Char) (mr : Nat × List Char)
    (hm : mr ∈ matchMonth (c1 :: c2 :: rest)) : mr.2 = rest ∨ mr.2 = c2 :: rest := by
  rw [matchMonth] at hm
  rw [List.mem_append, List.mem_append] at hm
  rcases hm with (h | h) | h
  · revert h
    split_ifs with hc
    · intro h
      rw [List.mem_singleton] at h
      subst h
      exact Or.inl rfl
    · intro h
      exact absurd h (List.not_mem_nil mr)
  · revert h
    split_ifs with hc
    · intro h
      rw [List.mem_singleton] at h
      subst h
      exact Or.inl rfl
    · intro h
      exact absurd h (List.not_mem_nil mr)
  · revert h
    split_ifs with hc
    · intro h
      rw [List.mem_singleton] at h
      subst h
      exact Or.inr rfl
    · intro h
      exact absurd h (List.not_mem_nil mr)

theorem regexMDYslash_fmt (d : Date) : regexMDYslash (fmtChars d) = none := by
  rw [regexMDYslash, List.findSome?_eq_none_iff]
  intro mr hmr
  have hfmt : fmtChars d = digitChar (d.year / 1000 % 10) :: digitChar (d.year / 100 % 10) ::
      (digitChar (d.year / 10 % 10) :: digitChar (d.year % 10) ::
        '-' :: (pad2 d.month ++ '-' :: pad2 d.day)) := rfl
  rw [hfmt] at hmr
  rcases matchMonth_rest _ _ _ mr hmr with h | h <;> rw [h]
  · rw [expectChar, if_neg (digitChar_ne_slash _ (Nat.mod_lt _ (by omega)))]
    rfl
  · rw [expectChar, if_neg (digitChar_ne_slash _ (Nat.mod_lt _ (by omega)))]
    rfl

theorem day_part (dd : Nat) (hd1 : 1 ≤ dd) (hd31 : dd ≤ 31) (y' m' : Nat) :
    ((matchDay (pad2 dd)).findSome? fun dr =>
      if dr.2 = ([] : List Char) then some (y', m', dr.1) else none) = some (y', m', dd) := by
  have h := matchDay_pad2 dd hd1 hd31 []
  rw [List.append_nil] at h
  rw [h]
  by_cases h9 : dd ≤ 9
  · rw [if_pos h9, List.findSome?]
    simp
  · rw [if_neg h9]
    by_cases h29 : dd ≤ 29
    · rw [if_pos h29, List.findSome?]
      simp
    · rw [if_neg h29, List.findSome?]
      simp

theorem monthday_part (m dd y' : Nat) (hm1 : 1 ≤ m) (hm12 : m ≤ 12)
    (hd1 : 1 ≤ dd) (hd31 : dd ≤ 31) :
    ((matchMonth (pad2 m ++ '-' :: pad2 dd)).findSome? fun mr =>
      (expectChar '-' mr.2).bind fun r4 =>
        (matchDay r4).findSome? fun dr =>
          if dr.2 = ([] : List Char) then some (y', mr.1, dr.1) else none) =
      some (y', m, dd) := by
  rw [matchMonth_pad2 m hm1 hm12]
  have hfirst : ((expectChar '-' ('-' :: pad2 dd)).bind fun r4 =>
      (matchDay r4).findSome? fun dr =>
        if dr.2 = ([] : List Char) then some (y', m, dr.1) else none) = some (y', m, dd) := by
    rw [expectChar, if_pos rfl, Option.some_bind]
    exact day_part dd hd1 hd31 y' m
  by_cases h9 : m ≤ 9
  · rw [if_pos h9, List.findSome?]
    rw [hfirst]
  · rw [if_neg h9, List.findSome?]
    rw [hfirst]

theorem daysInMonth_le_31 (y m : Nat) : daysInMonth y m ≤ 31 := by
  by_cases h : m < 14
  · interval_cases m <;> simp [daysInMonth] <;> cases isLeap y <;> simp
  · rw [daysInMonth]
    iterate 12 rw [if_neg (by omega)]
    omega

theorem isValidDate_fields (d : Date) (hd : isValidDate d = true) :
    1 ≤ d.year ∧ d.year ≤ 9999 ∧ 1 ≤ d.month ∧ d.month ≤ 12 ∧ 1 ≤ d.day ∧ d.day ≤ 31 := by
  rw [isValidDate] at hd
  simp only [Bool.and_eq_true, decide_eq_true_eq] at hd
  refine ⟨hd.1.1.1.1.1, hd.1.1.1.1.2, hd.1.1.1.2, hd.1.1.2, hd.1.2, ?_⟩
  exact le_trans hd.2 (daysInMonth_le_31 d.year d.month)

theorem regexYMDdash_fmt (d : Date) (hd : isValidDate d = true) :
    regexYMDdash (fmtChars d) = some (d.year, d.month, d.day) := by
  obtain ⟨hy1, hy2, hm1, hm2, hd1, hd31⟩ := isValidDate_fields d hd
  rw [regexYMDdash]
  have hfmt : fmtChars d = pad4 d.year ++ ('-' :: (pad2 d.month ++ '-' :: pad2 d.day)) := rfl
  rw [hfmt, matchYear_pad4 _ hy2, List.findSome?]
  rw [expectChar, if_pos rfl, Option.some_bind]
  rw [monthday_part d.month d.day d.year hm1 hm2 hd1 hd31]

/-- Round trip: a valid date rendered as `YYYY-MM-DD` parses back to
itself — the `MM/DD/YYYY` branch fails (no slash after the month field)
and the `YYYY-MM-DD` branch matches. -/
theorem parse_date_formatYMD (d : Date) (hd : isValidDate d = true) :
    parse_date (formatYMD d) = some d := by
  have hdata : (formatYMD d).data = fmtChars d := rfl
  have h1 : tryMDYslash (formatYMD d) = none := by
    rw [tryMDYslash, hdata, regexMDYslash_fmt]
    rfl
  have h2 : tryYMDdash (formatYMD d) = some d := by
    rw [tryYMDdash, hdata, regexYMDdash_fmt d hd, Option.some_bind, mkValidDate]
    have he : (⟨d.year, d.month, d.day⟩ : Date) = d := rfl
    rw [he, if_pos hd]
  rw [parse_date, List.findSome?, h1, List.findSome?, h2]

theorem charsLt_digit_cons (a b : Nat) (ha : a < 10) (hb : b < 10) (r1 r2 : List Char) :
    charsLt (digitChar a :: r1) (digitChar b :: r2) =
      if a < b then true else if b < a then false else charsLt r1 r2 := by
  rw [charsLt]
  by_cases hab : a < b
  · rw [if_pos ((digitChar_lt_iff a ha b hb).mpr hab), if_pos hab]
  · rw [if_neg (fun hc => hab ((digitChar_lt_iff a ha b hb).mp hc)), if_neg hab]
    by_cases hba : b < a
    · rw [if_pos ((digitChar_lt_iff b hb a ha).mpr hba), if_pos hba]
    · rw [if_neg (fun hc => hba ((digitChar_lt_iff b hb a ha).mp hc)), if_neg hba]

theorem charsLt_pad4 (y1 y2 : Nat) (h1 : y1 ≤ 9999) (h2 : y2 ≤ 9999) (r1 r2 : List Char) :
    charsLt (pad4 y1 ++ r1) (pad4 y2 ++ r2) =
      if y1 < y2 then true else if y2 < y1 then false else charsLt r1 r2 := by
  have d11 : y1 / 1000 % 10 < 10 := Nat.mod_lt _ (by omega)
  have d12 : y1 / 100 % 10 < 10 := Nat.mod_lt _ (by omega)
  have d13 : y1 / 10 % 10 < 10 := Nat.mod_lt _ (by omega)
  have d14 : y1 % 10 < 10 := Nat.mod_lt _ (by omega)
  have d21 : y2 / 1000 % 10 < 10 := Nat.mod_lt _ (by omega)
  have d22 : y2 / 100 % 10 < 10 := Nat.mod_lt _ (by omega)
  have d23 : y2 / 10 % 10 < 10 := Nat.mod_lt _ (by omega)
  have d24 : y2 % 10 < 10 := Nat.mod_lt _ (by omega)
  rw [show pad4 y1 ++ r1 = digitChar (y1 / 1000 % 10) :: digitChar (y1 / 100 % 10) ::
      digitChar (y1 / 10 % 10) :: digitChar (y1 % 10) :: r1 from rfl]
  rw [show pad4 y2 ++ r2 = digitChar (y2 / 1000 % 10) :: digitChar (y2 / 100 % 10) ::
      digitChar (y2 / 10 % 10) :: digitChar (y2 % 10) :: r2 from rfl]
  rw [charsLt_digit_cons _ _ d11 d21, charsLt_digit_cons _ _ d12 d22,
    charsLt_digit_cons _ _ d13 d23, charsLt_digit_cons _ _ d14 d24]
  by_cases q1 : y1 / 1000 % 10 < y2 / 1000 % 10
  · rw [if_pos q1, if_pos (show y1 < y2 by omega)]
  · rw [if_neg q1]
    by_cases q1b : y2 / 1000 % 10 < y1 / 1000 % 10
    · rw [if_pos q1b, if_neg (show ¬ y1 < y2 by omega), if_pos (show y2 < y1 by omega)]
    · rw [if_neg q1b]
      by_cases q2 : y1 / 100 % 10 < y2 / 100 % 10
      · rw [if_pos q2, if_pos (show y1 < y2 by omega)]
      · rw [if_neg q2]
        by_cases q2b : y2 / 100 % 10 < y1 / 100 % 10
        · rw [if_pos q2b, if_neg (show ¬ y1 < y2 by omega), if_pos (show y2 < y1 by omega)]
        · rw [if_neg q2b]
          by_cases q3 : y1 / 10 % 10 < y2 / 10 % 10
          · rw [if_pos q3, if_pos (show y1 < y2 by omega)]
          · rw [if_neg q3]
            by_cases q3b : y2 / 10 % 10 < y1 / 10 % 10
            · rw [if_pos q3b, if_neg (show ¬ y1 < y2 by omega),
                if_pos (show y2 < y1 by omega)]
            · rw [if_neg q3b]
              by_cases q4 : y1 % 10 < y2 % 10
              · rw [if_pos q4, if_pos (show y1 < y2 by omega)]
              · rw [if_neg q4]
                by_cases q4b : y2 % 10 < y1 % 10
                · rw [if_pos q4b, if_neg (show ¬ y1 < y2 by omega),
                    if_pos (show y2 < y1 by omega)]
                · rw [if_neg q4b, if_neg (show ¬ y1 < y2 by omega),
                    if_neg (show ¬ y2 < y1 by omega)]

theorem charsLt_pad2 (a1 a2 : Nat) (h1 : a1 ≤ 99) (h2 : a2 ≤ 99) (r1 r2 : List Char) :
    charsLt (pad2 a1 ++ r1) (pad2 a2 ++ r2) =
      if a1 < a2 then true else if a2 < a1 then false else charsLt r1 r2 := by
  have d11 : a1 / 10 % 10 < 10 := Nat.mod_lt _ (by omega)
  have d12 : a1 % 10 < 10 := Nat.mod_lt _ (by omega)
  have d21 : a2 / 10 % 10 < 10 := Nat.mod_lt _ (by omega)
  have d22 : a2 % 10 < 10 := Nat.mod_lt _ (by omega)
  rw [show pad2 a1 ++ r1 = digitChar (a1 / 10 % 10) :: digitChar (a1 % 10) :: r1 from rfl]
  rw [show pad2 a2 ++ r2 = digitChar (a2 / 10 % 10) :: digitChar (a2 % 10) :: r2 from rfl]
  rw [charsLt_digit_cons _ _ d11 d21, charsLt_digit_cons _ _ d12 d22]
  by_cases q1 : a1 / 10 % 10 < a2 / 10 % 10
  · rw [if_pos q1, if_pos (show a1 < a2 by omega)]
  · rw [if_neg q1]
    by_cases q1b : a2 / 10 % 10 < a1 / 10 % 10
    · rw [if_pos q1b, if_neg (show ¬ a1 < a2 by omega), if_pos (show a2 < a1 by omega)]
    · rw [if_neg q1b]
      by_cases q2 : a1 % 10 < a2 % 10
      · rw [if_pos q2, if_pos (show a1 < a2 by omega)]
      · rw [if_neg q2]
        by_cases q2b : a2 % 10 < a1 % 10
        · rw [if_pos q2b, if_neg (show ¬ a1 < a2 by omega), if_pos (show a2 < a1 by omega)]
        · rw [if_neg q2b, if_neg (show ¬ a1 < a2 by omega), if_neg (show ¬ a2 < a1 by omega)]

theorem charsLt_dash_cons (r1 r2 : List Char) :
    charsLt ('-' :: r1) ('-' :: r2) = charsLt r1 r2 := by
  rw [charsLt, if_neg (lt_irrefl _), if_neg (lt_irrefl _)]

/-- Comparing two canonical `YYYY-MM-DD` renderings character by
character is comparing the dates chronologically. -/
theorem charsLt_fmt (d1 d2 : Date) (h1 : isValidDate d1 = true) (h2 : isValidDate d2 = true) :
    charsLt (fmtChars d1) (fmtChars d2) = dateLtB d1 d2 := by
  obtain ⟨hy1a, hy1b, hm1a, hm1b, hd1a, hd1b⟩ := isValidDate_fields d1 h1
  obtain ⟨hy2a, hy2b, hm2a, hm2b, hd2a, hd2b⟩ := isValidDate_fields d2 h2
  rw [show fmtChars d1 = pad4 d1.year ++ ('-' :: (pad2 d1.month ++ '-' :: pad2 d1.day)) from rfl]
  rw [show fmtChars d2 = pad4 d2.year ++ ('-' :: (pad2 d2.month ++ '-' :: pad2 d2.day)) from rfl]
  rw [charsLt_pad4 _ _ hy1b hy2b, charsLt_dash_cons,
    charsLt_pad2 _ _ (by omega) (by omega), charsLt_dash_cons]
  rw [← List.append_nil (pad2 d1.day), ← List.append_nil (pad2 d2.day),
    charsLt_pad2 _ _ (by omega) (by omega)]
  rw [show charsLt [] [] = false from rfl, dateLtB]
  by_cases qy : d1.year < d2.year
  · rw [if_pos qy]
    simp [qy]
  · rw [if_neg qy]
    by_cases qyb : d2.year < d1.year
    · rw [if_pos qyb]
      simp [qy, show ¬ d1.year = d2.year by omega]
    · rw [if_neg qyb]
      have hye : d1.year = d2.year := by omega
      by_cases qm : d1.month < d2.month
      · rw [if_pos qm]
        simp [qy, hye, qm]
      · rw [if_neg qm]
        by_cases qmb : d2.month < d1.month
        · rw [if_pos qmb]
          simp [qy, hye, qm, show ¬ d1.month = d2.month by omega]
        · rw [if_neg qmb]
          have hme : d1.month = d2.month := by omega
          by_cases qd : d1.day < d2.day
          · rw [if_pos qd]
            simp [qy, hye, qm, hme, qd]
          · rw [if_neg qd]
            by_cases qdb : d2.day < d1.day
            · rw [if_pos qdb]
              simp [qy, hye, qm, hme, qd]
            · rw [if_neg qdb]
              simp [qy, hye, qm, hme, qd]

theorem mem_insertP (le : α → α → Bool) (x : α) :
    ∀ (l : List α) (a : α), a ∈ insertP le x l ↔ a = x ∨ a ∈ l := by
  intro l
  induction l with
  | nil => intro a; simp [insertP]
  | cons y ys ih =>
    intro a
    by_cases h : le x y
    · rw [insertP, if_pos h]
      simp
    · rw [insertP, if_neg h]
      rw [List.mem_cons, List.mem_cons, ih a]
      tauto

theorem mem_sortP (le : α → α → Bool) :
    ∀ (l : List α) (a : α), a ∈ sortP le l ↔ a ∈ l := by
  intro l
  induction l with
  | nil => intro a; rfl
  | cons y ys ih =>
    intro a
    rw [sortP, mem_insertP, ih a, List.mem_cons]

theorem insertP_congr (le1 le2 : α → α → Bool) (x : α) :
    ∀ l : List α, (∀ b ∈ l, le1 x b = le2 x b) → insertP le1 x l = insertP le2 x l := by
  intro l
  induction l with
  | nil => intro _; rfl
  | cons y ys ih =>
    intro hag
    rw [insertP, insertP, hag y (by simp)]
    by_cases h : le2 x y
    · rw [if_pos h, if_pos h]
    · rw [if_neg h, if_neg h, ih (fun b hb => hag b (List.mem_cons_of_mem _ hb))]

theorem sortP_congr (le1 le2 : α → α → Bool) :
    ∀ l : List α, (∀ a ∈ l, ∀ b ∈ l, le1 a b = le2 a b) →
      sortP le1 l = sortP le2 l := by
  intro l
  induction l with
  | nil => intro _; rfl
  | cons x xs ih =>
    intro hag
    rw [sortP, sortP, ih (fun a ha b hb => hag a (List.mem_cons_of_mem _ ha)
      b (List.mem_cons_of_mem _ hb))]
    apply insertP_congr
    intro b hb
    exact hag x (by simp) b (List.mem_cons_of_mem _ ((mem_sortP le2 xs b).mp hb))

theorem leChrono_some (x y : Period) (a b : Date)
    (hx : parse_date (rawKey x) = some a) (hy : parse_date (rawKey y) = some b) :
    leChrono x y = !dateLtB b a := by
  rw [leChrono, hx, hy]

/-- C2 (amended): when every interval's `startdate` string is the
canonical `YYYY-MM-DD` rendering of a valid date, the raw-string sort the
code performs coincides with the chronological sort and the computed map
equals the chronologically-processed one; with `MM/DD/YYYY` or mixed
formats (in particular across a year boundary) the orders can differ, see
the counterexample. -/
theorem c2_amended (cid ys ye : Nat) (l : List Period)
    (hc : ∀ p ∈ l, ∃ d : Date, isValidDate d = true ∧ p.startdate = some (formatYMD d)) :
    calculate_states l cid ys ye = calculate_states_chronological l cid ys ye := by
  rw [calculate_states, calculate_states_chronological]
  have hs : sortP leRaw l = sortP leChrono l := by
    apply sortP_congr
    intro a ha b hb
    rcases hc a ha with ⟨da, hva, hsa⟩
    rcases hc b hb with ⟨db, hvb, hsb⟩
    have hka : rawKey a = formatYMD da := by rw [rawKey, hsa]; rfl
    have hkb : rawKey b = formatYMD db := by rw [rawKey, hsb]; rfl
    rw [leChrono_some a b da db (by rw [hka]; exact parse_date_formatYMD da hva)
      (by rw [hkb]; exact parse_date_formatYMD db hvb)]
    rw [leRaw, hka, hkb]
    rw [show (formatYMD db).data = fmtChars db from rfl,
      show (formatYMD da).data = fmtChars da from rfl]
    rw [charsLt_fmt db da hvb hva]
  rw [hs]

/-- Witness for C2 (amended): two canonical `YYYY-MM-DD` intervals given
out of chronological order. -/
theorem c2_amended_witness :
    calculate_states
        [⟨some (formatYMD ⟨2026, 7, 1⟩), some "2026-07-02"⟩,
         ⟨some (formatYMD ⟨2026, 6, 10⟩), some "2026-06-12"⟩] 1 ys2026 ye2026 =
      calculate_states_chronological
        [⟨some (formatYMD ⟨2026, 7, 1⟩), some "2026-07-02"⟩,
         ⟨some (formatYMD ⟨2026, 6, 10⟩), some "2026-06-12"⟩] 1 ys2026 ye2026 :=
  c2_amended 1 ys2026 ye2026 _ (by
    intro p hp
    rcases List.mem_cons.mp hp with h | hp2
    · exact ⟨⟨2026, 7, 1⟩, by decide, by rw [h]⟩
    · rcases List.mem_cons.mp hp2 with h | hab
      · exact ⟨⟨2026, 6, 10⟩, by decide, by rw [h]⟩
      · exact absurd hab (List.not_mem_nil p))
